import Mathlib

/-!
# subs-check: the checking pipeline of `check/check.go`

A shallow embedding of `Check.Start`, `Check.GetProxyFromSubs`,
`Check.CreateClient` and `Check.GetResults`.

* Go `int` values (slice lengths, the configured concurrency, loop indices)
  are integers.  Every intermediate value of the shard arithmetic lies
  between `0` and `len(proxies)` (see `shardRange_intermediate`), so 64-bit
  wrap-around cannot occur there.
* The two `int32` counters of `Start` wrap modulo `2^32` (`wrapInt32`).
* External collaborators (HTTP retrieval, YAML decoding, the proxy adapter,
  the service probes, the geo lookup and the renamer) are oracles.
* The worker goroutines are a step relation driven by a schedule.
-/

namespace SubsCheck

/-! ## Data model -/

/-- Dynamic values of Go `any`, as a decoded subscription document holds them. -/
inductive GoAny where
  | null
  | bool (b : Bool)
  | int (n : Int)
  | str (s : String)
  | seq (xs : List GoAny)
  | strMap (kvs : List (String × GoAny))
  | anyMap (kvs : List (GoAny × GoAny))

/-- A value of Go type `map[string]any`: a node definition or a decoded document. -/
abbrev Node := List (String × GoAny)

/-- Map index expression `m[k]` with the comma-ok form: `none` when the key is absent. -/
def mapLookup : Node → String → Option GoAny
  | [], _ => none
  | (k', v) :: rest, k => if k' = k then some v else mapLookup rest k

/-- Map assignment `m[k] = v`. -/
def mapSet : Node → String → GoAny → Node
  | [], k, v => [(k, v)]
  | (k', v') :: rest, k, v =>
    if k' = k then (k, v) :: rest else (k', v') :: mapSet rest k v

/-- The `Result` struct. -/
structure Result where
  Proxy : Node
  Openai : Bool
  Youtube : Bool
  Netflix : Bool
  Google : Bool
  Cloudflare : Bool
  Disney : Bool

/-- The fields of `Config` that the pipeline reads. -/
structure Config where
  SubUrls : List String
  Timeout : Int
  Concurrent : Int
  PrintProgress : Bool

/-! ## Shard arithmetic of `Start` (lines 87-88 and 123-129) -/

/-- Bounds `(start, end)` of the slice handed to worker `i`:
`proxyPerThread := proxyCount / Concurrent`, `start := i * proxyPerThread`,
`end := (i + 1) * proxyPerThread`, and `end = proxyCount` for the last worker.
Go integer division truncates toward zero. -/
def shardRange (proxyCount Concurrent i : Int) : Int × Int :=
  let proxyPerThread := Int.tdiv proxyCount Concurrent
  let start := i * proxyPerThread
  let stop := (i + 1) * proxyPerThread
  if i = Concurrent - 1 then (start, proxyCount) else (start, stop)

/-- Slice expression `xs[lo:hi]`; `none` is the run-time panic for bounds out of range. -/
def goSlice {α : Type} (xs : List α) (lo hi : Int) : Option (List α) :=
  if 0 ≤ lo ∧ lo ≤ hi ∧ hi ≤ (xs.length : Int) then
    some ((xs.drop lo.toNat).take (hi.toNat - lo.toNat))
  else none

/-- Collects the results of a list of fallible steps, failing at the first failure. -/
def allSome {β : Type} : List (Option β) → Option (List β)
  | [] => some []
  | none :: _ => none
  | some b :: rest => (allSome rest).map (fun bs => b :: bs)

/-- The slices handed to the workers by the loop `for i := 0; i < Concurrent; i++`,
in worker order; `none` is a run-time panic (division by zero, or a slice out of range). -/
def spawnShards {α : Type} (proxies : List α) (Concurrent : Int) : Option (List (List α)) :=
  if Concurrent = 0 then none
  else
    allSome ((List.range Concurrent.toNat).map (fun i : Nat =>
      goSlice proxies (shardRange proxies.length Concurrent i).1
        (shardRange proxies.length Concurrent i).2))

/-- Index at which the slices of the first `k` workers end. -/
def shardCut (L N : Int) (k : Nat) : Nat :=
  if (k : Int) = N then L.toNat else ((k : Int) * (L / N)).toNat

/-! ## Subscription fetcher: `GetProxyFromSubs` (lines 197-255) -/

/-- Result of a Go call that returns `(value, error)` or panics. -/
inductive GoResult (α : Type) where
  | ok (a : α)
  | err (e : String)
  | panic

/-- An `*http.Response`, as far as the fetcher reads it: the result of `io.ReadAll(resp.Body)`. -/
structure Response where
  readAll : Except String String

/-- Oracles for the external calls of `GetProxyFromSubs`.  `httpGet i url k` is the result of
the call `http.Get(url)` made for the `i`-th configured URL when `retries = k`. -/
structure FetchEnv where
  httpGet : Nat → String → Nat → Except String Response
  Unmarshal : String → Except String Node

/-- Observable effects of the retry loop. -/
inductive Event where
  | get (urlIndex : Nat) (url : String)
  | sleep (nanoseconds : Int)
deriving DecidableEq

/-- The duration constant `time.Second`, in nanoseconds. -/
def Second : Int := 1000000000

/-- The retry loop `for retries := 0; retries < 30; retries++` (lines 207-214), with
`remaining = 30 - retries` iterations left.  The state is the pair of variables `(resp, err)`. -/
def retryLoop (fenv : FetchEnv) (i : Nat) (subUrl : String) :
    Nat → Nat → Option Response × Option String →
      (Option Response × Option String) × List Event
  | 0, _, st => (st, [])
  | remaining + 1, retries, _ =>
    match fenv.httpGet i subUrl retries with
    | .ok resp => ((some resp, none), [Event.get i subUrl])
    | .error e =>
      let r := retryLoop fenv i subUrl remaining (retries + 1) (none, some e)
      (r.1, Event.get i subUrl :: Event.sleep (Second * ((retries : Int) + 1)) :: r.2)

/-- Type assertion `proxy.(map[string]any)`. -/
def asStringMap : GoAny → Option Node
  | .strMap m => some m
  | _ => none

/-- Type assertion `proxyInterface.([]any)`. -/
def asSlice : GoAny → Option (List GoAny)
  | .seq xs => some xs
  | _ => none

/-- The inner loop `for _, proxy := range proxyList` (lines 241-247), appending to `proxies`. -/
def appendProxies : List GoAny → List Node → List Node
  | [], proxies => proxies
  | proxy :: rest, proxies =>
    match asStringMap proxy with
    | none => appendProxies rest proxies
    | some proxyMap => appendProxies rest (proxies ++ [proxyMap])

/-- Lines 231-247: the nodes of one decoded document are appended to `proxies`. -/
def collectProxies (config : Node) (proxies : List Node) : List Node :=
  match mapLookup config "proxies" with
  | none => proxies
  | some .null => proxies
  | some proxyInterface =>
    match asSlice proxyInterface with
    | none => proxies
    | some proxyList => appendProxies proxyList proxies

/-- The loop over `c.config.SubUrls` and the final emptiness check; the second component is
the trace of `http.Get` calls and sleeps. -/
def fetchLoop (fenv : FetchEnv) :
    List (Nat × String) → List Node → GoResult (List Node) × List Event
  | [], proxies =>
    (if proxies.length = 0 then .err "未找到任何可用节点" else .ok proxies, [])
  | (i, subUrl) :: rest, proxies =>
    let r := retryLoop fenv i subUrl 30 0 (none, none)
    match r.1 with
    | (_, some e) => (.err e, r.2)
    | (none, none) => (.panic, r.2)
    | (some resp, none) =>
      match resp.readAll with
      | .error e => (.err ("读取配置文件失败: " ++ e), r.2)
      | .ok data =>
        match fenv.Unmarshal data with
        | .error e => (.err e, r.2)
        | .ok config =>
          let q := fetchLoop fenv rest (collectProxies config proxies)
          (q.1, r.2 ++ q.2)

/-- `GetProxyFromSubs`, with its trace of retrievals and sleeps. -/
def GetProxyFromSubs (fenv : FetchEnv) (config : Config) :
    GoResult (List Node) × List Event :=
  fetchLoop fenv config.SubUrls.enum []

/-! ## Per-node client factory and probe sequence (lines 134-183, 257-286) -/

/-- Conversion to `int32`: two's-complement wrap-around. -/
def wrapInt32 (x : Int) : Int := (x + 2147483648) % 4294967296 - 2147483648

/-- Conversion to `int64`: two's-complement wrap-around. -/
def wrapInt64 (x : Int) : Int :=
  (x + 9223372036854775808) % 18446744073709551616 - 9223372036854775808

/-- The `*http.Client` built by `CreateClient`: its `Timeout` (a `time.Duration`) and the
node mapping whose dialer its transport delegates to. -/
structure Client where
  Timeout : Int
  mapping : Node

/-- Oracles for the external collaborators of the workers.  The first argument of a call
oracle is the position of the node in the fetched list, so that two calls on equal node
definitions may answer differently.  A Go `(bool, error)` result is a pair whose second
component is `none` for a nil error. -/
structure ProbeEnv where
  ParseProxy : Nat → Node → Option String
  CheckCloudflare : Nat → Client → Bool × Option String
  CheckGoogle : Nat → Client → Bool × Option String
  CheckOpenai : Nat → Client → Bool × Option String
  CheckYoutube : Nat → Client → Bool × Option String
  CheckNetflix : Nat → Client → Bool × Option String
  CheckDisney : Nat → Client → Bool × Option String
  GetIPaddrFromAPI : Nat → Client → String
  GetIPCountrynameFromdb : String → String
  Rename : String → String

/-- `CreateClient`: `nil` (here `none`) when `adapter.ParseProxy` fails. -/
def CreateClient (penv : ProbeEnv) (config : Config) (i : Nat) (mapping : Node) :
    Option Client :=
  match penv.ParseProxy i mapping with
  | some _ => none
  | none => some { Timeout := wrapInt64 (wrapInt64 config.Timeout * Second), mapping := mapping }

/-- Type assertion `x.(string)`. -/
def asString : GoAny → Option String
  | .str s => some s
  | _ => none

/-- What the probe sequence of one node ends in. -/
inductive NodeOutcome where
  | skipped
  | recorded (r : Result)
  | panicked

/-- Lines 144-183 for one node whose client was built: the two required probes, the four
best-effort probes, the enrichment of the `"name"` field, and the `Result` to append. -/
def probeNode (penv : ProbeEnv) (i : Nat) (httpClient : Client) (proxy : Node) : NodeOutcome :=
  let cloudflare := penv.CheckCloudflare i httpClient
  if cloudflare.2.isSome || !cloudflare.1 then .skipped
  else
    let google := penv.CheckGoogle i httpClient
    if google.2.isSome || !google.1 then .skipped
    else
      let openai := penv.CheckOpenai i httpClient
      let youtube := penv.CheckYoutube i httpClient
      let netflix := penv.CheckNetflix i httpClient
      let disney := penv.CheckDisney i httpClient
      let ipfromapi := penv.GetIPaddrFromAPI i httpClient
      let country := penv.GetIPCountrynameFromdb ipfromapi
      let proxy1 :=
        if country ≠ "" then mapSet proxy "name" (.str country)
        else mapSet proxy "name" (.str "未识别")
      match (mapLookup proxy1 "name").bind asString with
      | none => .panicked
      | some name =>
        .recorded
          { Proxy := mapSet proxy1 "name" (.str (penv.Rename name))
            Cloudflare := cloudflare.1
            Google := google.1
            Openai := openai.1
            Youtube := youtube.1
            Netflix := netflix.1
            Disney := disney.1 }

/-! ## The workers of `Start` as a scheduled transition system -/

/-- A worker goroutine: the node it is probing (its client is built and `progress` is
already incremented for it) and the nodes of its slice it has not reached yet. -/
structure Worker where
  cur : Option (Nat × Node × Client)
  queue : List (Nat × Node)

/-- The state shared by the workers: the `int32` counters `progress` and `availableCount`,
the slice `c.results`, and whether a goroutine has panicked. -/
structure Shared where
  progress : Int
  availableCount : Int
  results : List Result
  panicked : Bool

/-- A state of the run. -/
structure RunState where
  shared : Shared
  workers : List Worker

/-- One atomic action of a worker; `none` when the worker has finished its slice.
At the loop head: `CreateClient`, then `continue` or `progress++` under `mu`.
With a client: the probes, then `continue` or, under `c.mu`, `availableCount++` and the
append to `c.results`. -/
def workerStep (penv : ProbeEnv) (config : Config) (w : Worker) (sh : Shared) :
    Option (Worker × Shared) :=
  match w.cur with
  | some (i, proxy, httpClient) =>
    match probeNode penv i httpClient proxy with
    | .skipped => some ({ cur := none, queue := w.queue }, sh)
    | .recorded r =>
      some ({ cur := none, queue := w.queue },
        { sh with availableCount := wrapInt32 (sh.availableCount + 1)
                  results := sh.results ++ [r] })
    | .panicked => some (w, { sh with panicked := true })
  | none =>
    match w.queue with
    | [] => none
    | (i, proxy) :: rest =>
      match CreateClient penv config i proxy with
      | none => some ({ cur := none, queue := rest }, sh)
      | some httpClient =>
        some ({ cur := some (i, proxy, httpClient), queue := rest },
          { sh with progress := wrapInt32 (sh.progress + 1) })

/-- The worker with index `k` takes its next action. -/
def stepAt (penv : ProbeEnv) (config : Config) :
    Nat → List Worker → Shared → Option (List Worker × Shared)
  | _, [], _ => none
  | 0, w :: ws, sh =>
    (workerStep penv config w sh).map (fun r => (r.1 :: ws, r.2))
  | k + 1, w :: ws, sh =>
    (stepAt penv config k ws sh).map (fun r => (w :: r.1, r.2))

/-- One step of the run: no goroutine runs after a panic. -/
def step (penv : ProbeEnv) (config : Config) (k : Nat) (s : RunState) : Option RunState :=
  if s.shared.panicked then none
  else (stepAt penv config k s.workers s.shared).map
    (fun r => { shared := r.2, workers := r.1 })

/-- Runs a schedule, a list of worker indices; `none` when the schedule names a worker
that cannot act. -/
def run (penv : ProbeEnv) (config : Config) : List Nat → RunState → Option RunState
  | [], s => some s
  | k :: rest, s => (step penv config k s).bind (run penv config rest)

/-- The step relation of the run. -/
def Step (penv : ProbeEnv) (config : Config) (s t : RunState) : Prop :=
  ∃ k, step penv config k s = some t

/-- States reachable from `s` by worker actions. -/
def Reachable (penv : ProbeEnv) (config : Config) (s t : RunState) : Prop :=
  ∃ sched, run penv config sched s = some t

/-- Whether a worker has returned (`wg.Done`). -/
def Worker.done (w : Worker) : Bool := w.cur.isNone && w.queue.isEmpty

/-- Whether `wg.Wait()` returns: every worker has finished. -/
def allDone (s : RunState) : Bool := s.workers.all Worker.done

/-- The state right after the spawning loop: counters at zero, one worker per slice. -/
def initRun (results : List Result) (shards : List (List (Nat × Node))) : RunState :=
  { shared := { progress := 0, availableCount := 0, results := results, panicked := false }
    workers := shards.map (fun q => { cur := none, queue := q }) }

/-- The `Check` struct (its mutexes are the atomicity of `workerStep`). -/
structure Check where
  config : Config
  results : List Result

/-- `New`: the configuration is copied and the result list is empty. -/
def New (GlobalConfig : Config) : Check :=
  { config := GlobalConfig, results := [] }

/-- `GetResults`. -/
def GetResults (c : Check) : List Result := c.results

/-- How a call of `Start` ends: it returns an error value and leaves the receiver in a
state, or the process panics. -/
inductive StartResult where
  | returned (err : Option String) (c : Check)
  | panicked

/-- The part of `Start` before the workers run (lines 79-88 and 123-129): the fetch, then the
slices of the indexed node list. -/
def startBegin (fenv : FetchEnv) (c : Check) : GoResult RunState :=
  match (GetProxyFromSubs fenv c.config).1 with
  | .err e => .err ("获取节点失败: " ++ e)
  | .panic => .panic
  | .ok proxies =>
    match spawnShards proxies.enum c.config.Concurrent with
    | none => .panic
    | some shards => .ok (initRun c.results shards)

/-- `Start` under a schedule of the workers.  `none` means that the schedule is not a
complete run.  The progress printer only reads the counters and is left out. -/
def Start (fenv : FetchEnv) (penv : ProbeEnv) (c : Check) (sched : List Nat) :
    Option StartResult :=
  match startBegin fenv c with
  | .err e => some (.returned (some e) c)
  | .panic => some .panicked
  | .ok s0 =>
    match run penv c.config sched s0 with
    | none => none
    | some s =>
      if s.shared.panicked then some .panicked
      else if allDone s then some (.returned none { c with results := s.shared.results })
      else none

/-! ## Vocabulary of the statements on the fetcher -/

/-- The attempt `http.Get(url)` made for the `i`-th URL with `retries = k` ends in a
transport error. -/
def FailsAt (fenv : FetchEnv) (i : Nat) (url : String) (k : Nat) : Prop :=
  ∃ e, fenv.httpGet i url k = .error e

/-- The `i`-th URL is retrieved within the 30 attempts and its body decodes to `doc`. -/
def Retrieved (fenv : FetchEnv) (i : Nat) (url : String) (doc : Node) : Prop :=
  ∃ k resp data, k < 30 ∧ (∀ j, j < k → FailsAt fenv i url j) ∧
    fenv.httpGet i url k = .ok resp ∧ resp.readAll = .ok data ∧ fenv.Unmarshal data = .ok doc

/-- Statement side: the nodes one document contributes, namely the entries of its
`"proxies"` value that are mappings (`map[string]any`, the node type) when that value is a
sequence, and nothing otherwise. -/
def documentNodes (doc : Node) : List Node :=
  match mapLookup doc "proxies" with
  | some (.seq entries) => entries.filterMap asStringMap
  | _ => []

/-- Statement side: the trace of `k` failed attempts on the `i`-th URL, the first of them made
with `retries = first`: each request is followed by a sleep of `retries + 1` seconds. -/
def failedAttempts (i : Nat) (url : String) (first k : Nat) : List Event :=
  (List.range k).flatMap
    (fun j => [Event.get i url, Event.sleep (Second * (((first + j : Nat) : Int) + 1))])

/-- Number of requests made for the `i`-th URL in a trace. -/
def requestCount (i : Nat) : List Event → Nat
  | [] => 0
  | .get j _ :: rest => (if j = i then 1 else 0) + requestCount i rest
  | .sleep _ :: rest => requestCount i rest

/-- The largest URL index requested in a trace, plus one (`0` for no request). -/
def requestedBelow : List Event → Nat
  | [] => 0
  | .get j _ :: rest => max (j + 1) (requestedBelow rest)
  | .sleep _ :: rest => requestedBelow rest

/-! ## Vocabulary of the statements on the workers -/

/-- Whether `CreateClient` returns a client for the node at position `x.1`. -/
def hasClient (penv : ProbeEnv) (config : Config) (x : Nat × Node) : Bool :=
  (CreateClient penv config x.1 x.2).isSome

/-- The `Result` a node ends in, if any: its client is built and the probe sequence records it. -/
def recordedResult (penv : ProbeEnv) (config : Config) (x : Nat × Node) : Option Result :=
  match CreateClient penv config x.1 x.2 with
  | none => none
  | some httpClient =>
    match probeNode penv x.1 httpClient x.2 with
    | .recorded r => some r
    | _ => none

/-- The result of the probe sequence a worker is in the middle of. -/
def curResult (penv : ProbeEnv) : Option (Nat × Node × Client) → List Result
  | none => []
  | some (i, proxy, httpClient) =>
    match probeNode penv i httpClient proxy with
    | .recorded r => [r]
    | _ => []

/-- The results a worker has still to append. -/
def pendingResults (penv : ProbeEnv) (config : Config) (w : Worker) : List Result :=
  curResult penv w.cur ++ w.queue.filterMap (recordedResult penv config)

/-- The number of nodes of its queue for which a worker will still build a client. -/
def pendingClients (penv : ProbeEnv) (config : Config) (w : Worker) : Nat :=
  (w.queue.filter (hasClient penv config)).length

/-- `1` for a worker in the middle of a probe sequence, `0` otherwise. -/
def busy (w : Worker) : Nat := if w.cur.isSome then 1 else 0

/-- The number of actions a worker has left. -/
def workLeft (w : Worker) : Nat := 2 * w.queue.length + busy w

/-- What one action does to the shared state: it increments `progress` (`dP = 1`) or not
(`dP = 0`), and it appends the results `new` (none or one), incrementing `availableCount`
once for it. -/
def StepEffect (sh sh' : Shared) (dP : Nat) (new : List Result) : Prop :=
  dP ≤ 1 ∧ new.length ≤ 1 ∧ sh'.panicked = sh.panicked ∧
  sh'.progress = (if dP = 0 then sh.progress else wrapInt32 (sh.progress + 1)) ∧
  sh'.availableCount =
    (if new.length = 0 then sh.availableCount else wrapInt32 (sh.availableCount + 1)) ∧
  sh'.results = sh.results ++ new

/-- The invariant of a run over the indexed node list `all` that started with the result
list `r0`: `P` nodes have got a client and `a` results have been appended so far. -/
structure RunInv (penv : ProbeEnv) (config : Config) (all : List (Nat × Node))
    (r0 : List Result) (s : RunState) (P a : Nat) : Prop where
  notPanicked : s.shared.panicked = false
  progress_eq : s.shared.progress = wrapInt32 P
  available_eq : s.shared.availableCount = wrapInt32 a
  length_eq : s.shared.results.length = r0.length + a
  available_le : a + (s.workers.map busy).sum ≤ P
  clients_eq : P + (s.workers.map (pendingClients penv config)).sum =
    (all.filter (hasClient penv config)).length
  results_perm : (s.shared.results ++ s.workers.flatMap (pendingResults penv config)).Perm
    (r0 ++ all.filterMap (recordedResult penv config))

/-! ## Concrete scenarios -/

/-- Three node definitions. -/
def nodeA : Node := [("name", .str "a"), ("type", .str "ss"), ("port", .int 443)]

/-- Second node definition of the scenarios. -/
def nodeB : Node := [("name", .str "b"), ("type", .str "vmess")]

/-- Third node definition of the scenarios. -/
def nodeC : Node := [("type", .str "trojan"), ("name", .str "c")]

/-- A document whose `"proxies"` value holds three mappings and one entry that is not one. -/
def docWithProxies : Node :=
  [("port", .int 7890),
   ("proxies", .seq [.strMap nodeA, .strMap nodeB, .str "junk", .strMap nodeC])]

/-- A document with no `"proxies"` field. -/
def docWithoutProxies : Node := [("port", .int 7890)]

/-- Two subscription URLs, two workers. -/
def scenarioConfig : Config :=
  { SubUrls := ["https://a.example/sub", "https://b.example/sub"]
    Timeout := 5
    Concurrent := 2
    PrintProgress := false }

/-- The first URL answers at its third attempt with `docWithProxies`, the second one
at once with `docWithoutProxies`. -/
def scenarioFetch : FetchEnv :=
  { httpGet := fun i _ k =>
      if i = 0 then
        if k < 2 then .error "timeout" else .ok { readAll := .ok "first" }
      else .ok { readAll := .ok "second" }
    Unmarshal := fun data =>
      if data = "first" then .ok docWithProxies else .ok docWithoutProxies }

/-- Three subscription URLs. -/
def threeUrlConfig : Config :=
  { SubUrls := ["https://a.example/sub", "https://b.example/sub", "https://c.example/sub"]
    Timeout := 5
    Concurrent := 2
    PrintProgress := false }

/-- Every attempt on every URL fails. -/
def unreachableFetch : FetchEnv :=
  { httpGet := fun _ _ _ => .error "connection refused"
    Unmarshal := fun _ => .error "not reached" }

/-- Probe oracles of the scenarios.  The node at position 0 passes both required probes,
its `CheckOpenai` answers `(true, error)` and its `CheckYoutube` answers `(false, error)`;
the node at position 1 passes `CheckCloudflare` and fails `CheckGoogle`; the adapter rejects
the node at position 2. -/
def scenarioProbe : ProbeEnv :=
  { ParseProxy := fun i _ => if i = 2 then some "unsupported type" else none
    CheckCloudflare := fun _ _ => (true, none)
    CheckGoogle := fun i _ => if i = 1 then (false, none) else (true, none)
    CheckOpenai := fun _ _ => (true, some "unexpected EOF")
    CheckYoutube := fun _ _ => (false, some "timeout")
    CheckNetflix := fun _ _ => (true, none)
    CheckDisney := fun _ _ => (false, none)
    GetIPaddrFromAPI := fun _ _ => "203.0.113.7"
    GetIPCountrynameFromdb := fun ip => if ip = "203.0.113.7" then "US" else ""
    Rename := fun name => name ++ "_1" }

/-- The result recorded for `nodeA` under `scenarioProbe`. -/
def scenarioResult : Result :=
  { Proxy := [("name", .str "US_1"), ("type", .str "ss"), ("port", .int 443)]
    Openai := true
    Youtube := false
    Netflix := true
    Google := true
    Cloudflare := true
    Disney := false }

/-- The probe oracles of `scenarioProbe` with a geo database that knows no country. -/
def noCountryProbe : ProbeEnv :=
  { scenarioProbe with GetIPCountrynameFromdb := fun _ => "" }

/-- A document whose `"proxies"` value holds `n` copies of the mapping `nodeA`. -/
def manyNodesDoc (n : Nat) : Node := [("proxies", .seq (List.replicate n (.strMap nodeA)))]

/-- One subscription whose document holds `n` nodes. -/
def manyNodesFetch (n : Nat) : FetchEnv :=
  { httpGet := fun _ _ _ => .ok { readAll := .ok "" }
    Unmarshal := fun _ => .ok (manyNodesDoc n) }

/-- One subscription URL, one worker. -/
def oneWorkerConfig : Config :=
  { SubUrls := ["https://a.example/sub"]
    Timeout := 5
    Concurrent := 1
    PrintProgress := false }

/-- Every node gets a client and fails `CheckCloudflare`. -/
def rejectingProbe : ProbeEnv :=
  { ParseProxy := fun _ _ => none
    CheckCloudflare := fun _ _ => (false, none)
    CheckGoogle := fun _ _ => (true, none)
    CheckOpenai := fun _ _ => (false, none)
    CheckYoutube := fun _ _ => (false, none)
    CheckNetflix := fun _ _ => (false, none)
    CheckDisney := fun _ _ => (false, none)
    GetIPaddrFromAPI := fun _ _ => ""
    GetIPCountrynameFromdb := fun _ => ""
    Rename := fun name => name }

/-- Every node gets a client and passes both required probes. -/
def acceptingProbe : ProbeEnv :=
  { ParseProxy := fun _ _ => none
    CheckCloudflare := fun _ _ => (true, none)
    CheckGoogle := fun _ _ => (true, none)
    CheckOpenai := fun _ _ => (false, none)
    CheckYoutube := fun _ _ => (false, none)
    CheckNetflix := fun _ _ => (false, none)
    CheckDisney := fun _ _ => (false, none)
    GetIPaddrFromAPI := fun _ _ => ""
    GetIPCountrynameFromdb := fun _ => ""
    Rename := fun name => name }

/-! ## Lemmas on the shard arithmetic -/

theorem tdiv_nonneg_eq (L N : Int) (hL : 0 ≤ L) (hN : 1 ≤ N) : Int.tdiv L N = L / N :=
  Int.tdiv_eq_ediv hL (by omega)

theorem perThread_nonneg (L N : Int) (hL : 0 ≤ L) (hN : 1 ≤ N) : 0 ≤ L / N :=
  Int.ediv_nonneg hL (by omega)

theorem perThread_mul_le (L N : Int) (hN : 1 ≤ N) : N * (L / N) ≤ L := by
  have h := Int.ediv_mul_le L (show N ≠ 0 by omega)
  linarith [mul_comm N (L / N)]

theorem mul_perThread_le (L N i : Int) (hL : 0 ≤ L) (hN : 1 ≤ N) (hi : i ≤ N) :
    i * (L / N) ≤ L := by
  have h1 := perThread_mul_le L N hN
  have h2 := perThread_nonneg L N hL hN
  nlinarith

theorem mul_perThread_mono (L N i k : Int) (hL : 0 ≤ L) (hN : 1 ≤ N) (hik : i ≤ k) :
    i * (L / N) ≤ k * (L / N) := by
  have h2 := perThread_nonneg L N hL hN
  nlinarith

theorem shardRange_not_last (L N i : Int) (hL : 0 ≤ L) (hN : 1 ≤ N) (hi : i ≠ N - 1) :
    shardRange L N i = (i * (L / N), (i + 1) * (L / N)) := by
  simp [shardRange, tdiv_nonneg_eq L N hL hN, hi]

theorem shardRange_last (L N : Int) (hL : 0 ≤ L) (hN : 1 ≤ N) :
    shardRange L N (N - 1) = ((N - 1) * (L / N), L) := by
  simp [shardRange, tdiv_nonneg_eq L N hL hN]

/-- Every value computed by the shard arithmetic, the discarded `(i + 1) * proxyPerThread`
of the last worker included, lies in `[0, proxyCount]`. -/
theorem shardRange_intermediate (L N i : Int) (hL : 0 ≤ L) (hN : 1 ≤ N) (h0 : 0 ≤ i)
    (hi : i < N) :
    0 ≤ Int.tdiv L N ∧ Int.tdiv L N ≤ L ∧ 0 ≤ i * Int.tdiv L N ∧ i * Int.tdiv L N ≤ L ∧
      0 ≤ (i + 1) * Int.tdiv L N ∧ (i + 1) * Int.tdiv L N ≤ L := by
  rw [tdiv_nonneg_eq L N hL hN]
  have h2 := perThread_nonneg L N hL hN
  have h3 := mul_perThread_le L N 1 hL hN (by omega)
  have h4 := mul_perThread_le L N i hL hN (by omega)
  have h5 := mul_perThread_le L N (i + 1) hL hN (by omega)
  refine ⟨h2, by linarith, by positivity, h4, by positivity, h5⟩

theorem shardRange_bounds (L N i : Int) (hL : 0 ≤ L) (hN : 1 ≤ N) (h0 : 0 ≤ i) (hi : i < N) :
    0 ≤ (shardRange L N i).1 ∧ (shardRange L N i).1 ≤ (shardRange L N i).2 ∧
      (shardRange L N i).2 ≤ L := by
  have h2 := perThread_nonneg L N hL hN
  by_cases hlast : i = N - 1
  · subst hlast
    rw [shardRange_last L N hL hN]
    refine ⟨by positivity, mul_perThread_le L N (N - 1) hL hN (by omega), le_refl _⟩
  · rw [shardRange_not_last L N i hL hN hlast]
    refine ⟨by positivity, mul_perThread_mono L N i (i + 1) hL hN (by omega),
      mul_perThread_le L N (i + 1) hL hN (by omega)⟩

/-- Consecutive workers: the range of worker `i` ends where that of worker `i + 1` starts. -/
theorem shardRange_succ_start (L N i : Int) (hL : 0 ≤ L) (hN : 1 ≤ N) (hi : i < N - 1) :
    (shardRange L N (i + 1)).1 = (shardRange L N i).2 := by
  rw [shardRange_not_last L N i hL hN (by omega)]
  by_cases hlast : i + 1 = N - 1
  · rw [hlast, shardRange_last L N hL hN, ← hlast]
  · rw [shardRange_not_last L N (i + 1) hL hN hlast]

/-- The range of an earlier worker ends at or before the start of any later one. -/
theorem shardRange_ordered (L N i k : Int) (hL : 0 ≤ L) (hN : 1 ≤ N) (hik : i < k)
    (hk : k < N) : (shardRange L N i).2 ≤ (shardRange L N k).1 := by
  rw [shardRange_not_last L N i hL hN (by omega)]
  have hs : (shardRange L N k).1 = k * (L / N) := by
    by_cases hlast : k = N - 1
    · subst hlast
      rw [shardRange_last L N hL hN]
    · rw [shardRange_not_last L N k hL hN hlast]
  rw [hs]
  exact mul_perThread_mono L N (i + 1) k hL hN (by omega)

/-- Every index below the node count lies in the range of exactly one worker. -/
theorem shardRange_unique_owner (L N j : Int) (hN : 1 ≤ N) (h0 : 0 ≤ j) (hj : j < L) :
    ∃! i, (0 ≤ i ∧ i < N) ∧ (shardRange L N i).1 ≤ j ∧ j < (shardRange L N i).2 := by
  have hL : 0 ≤ L := by omega
  have h2 := perThread_nonneg L N hL hN
  have huniq : ∀ a b, (0 ≤ a ∧ a < N) ∧ (shardRange L N a).1 ≤ j ∧ j < (shardRange L N a).2 →
      (0 ≤ b ∧ b < N) ∧ (shardRange L N b).1 ≤ j ∧ j < (shardRange L N b).2 → ¬ a < b := by
    intro a b ha hb hab
    have := shardRange_ordered L N a b hL hN hab hb.1.2
    omega
  have hex : ∃ i, (0 ≤ i ∧ i < N) ∧ (shardRange L N i).1 ≤ j ∧ j < (shardRange L N i).2 := by
    by_cases hq : 0 < L / N ∧ j / (L / N) < N - 1
    · obtain ⟨hpos, hq⟩ := hq
      refine ⟨j / (L / N), ⟨Int.ediv_nonneg h0 h2, by omega⟩, ?_⟩
      rw [shardRange_not_last L N _ hL hN (by omega)]
      exact ⟨Int.ediv_mul_le j (by omega), Int.lt_ediv_add_one_mul_self j hpos⟩
    · refine ⟨N - 1, ⟨by omega, by omega⟩, ?_⟩
      rw [shardRange_last L N hL hN]
      refine ⟨?_, hj⟩
      by_cases hpos : 0 < L / N
      · have hq2 : N - 1 ≤ j / (L / N) := by
          by_contra hc
          exact hq ⟨hpos, by omega⟩
        have h3 := Int.ediv_mul_le j (show L / N ≠ 0 by omega)
        have h4 : (N - 1) * (L / N) ≤ j / (L / N) * (L / N) := by nlinarith
        show (N - 1) * (L / N) ≤ j
        linarith
      · have hz : L / N = 0 := by omega
        show (N - 1) * (L / N) ≤ j
        rw [hz]
        simpa using h0
  obtain ⟨i, hi⟩ := hex
  refine ⟨i, hi, ?_⟩
  intro k hk
  by_contra hne
  rcases lt_or_gt_of_ne hne with h | h
  · exact huniq k i hk hi h
  · exact huniq i k hi hk h

/-! ## The shards as lists -/

theorem allSome_snoc {β : Type} (xs : List (Option β)) (b : β) :
    allSome (xs ++ [some b]) = (allSome xs).map (fun bs => bs ++ [b]) := by
  induction xs with
  | nil => rfl
  | cons x rest ih =>
    cases x with
    | none => rfl
    | some y =>
      show allSome (some y :: (rest ++ [some b])) = _
      simp only [allSome, ih]
      cases allSome rest <;> rfl

theorem take_append_take_drop {α : Type} (l : List α) (m p : Nat) (h : m ≤ p) :
    l.take m ++ (l.drop m).take (p - m) = l.take p := by
  have := List.take_add l m (p - m)
  rw [Nat.add_sub_cancel' h] at this
  exact this.symm

theorem goSlice_shard {α : Type} (proxies : List α) (N : Int) (hN : 1 ≤ N) (k : Nat)
    (hk : (k : Int) < N) :
    goSlice proxies (shardRange proxies.length N k).1 (shardRange proxies.length N k).2 =
      some ((proxies.drop (shardCut proxies.length N k)).take
        (shardCut proxies.length N (k + 1) - shardCut proxies.length N k)) ∧
    shardCut proxies.length N k ≤ shardCut proxies.length N (k + 1) := by
  have hL : (0 : Int) ≤ (proxies.length : Int) := Int.natCast_nonneg _
  have hb := shardRange_bounds proxies.length N k hL hN (Int.natCast_nonneg _) hk
  have h1 : ((shardRange proxies.length N k).1).toNat = shardCut proxies.length N k := by
    have hne : (k : Int) ≠ N := by omega
    simp only [shardCut, hne, if_false]
    by_cases hlast : (k : Int) = N - 1
    · rw [hlast, shardRange_last _ N hL hN]
    · rw [shardRange_not_last _ N k hL hN hlast]
  have h2 : ((shardRange proxies.length N k).2).toNat = shardCut proxies.length N (k + 1) := by
    by_cases hlast : (k : Int) = N - 1
    · have hc : ((k + 1 : Nat) : Int) = N := by push_cast; omega
      simp only [shardCut, hc, if_true]
      rw [hlast, shardRange_last _ N hL hN]
    · have hc : ((k + 1 : Nat) : Int) ≠ N := by push_cast; omega
      simp only [shardCut, hc, if_false]
      rw [shardRange_not_last _ N k hL hN hlast]
      push_cast
      rfl
  refine ⟨?_, ?_⟩
  · rw [goSlice, if_pos hb, h1, h2]
  · rw [← h1, ← h2]
    exact Int.toNat_le_toNat hb.2.1

theorem spawnShards_take {α : Type} (proxies : List α) (N : Int) (hN : 1 ≤ N) (k : Nat)
    (hk : (k : Int) ≤ N) :
    ∃ ss, allSome ((List.range k).map (fun i : Nat =>
        goSlice proxies (shardRange proxies.length N i).1 (shardRange proxies.length N i).2))
          = some ss ∧ ss.length = k ∧
        ss.flatten = proxies.take (shardCut proxies.length N k) := by
  induction k with
  | zero =>
    refine ⟨[], rfl, rfl, ?_⟩
    have hne : ¬ (0 : Int) = N := by omega
    simp [shardCut, hne]
  | succ k ih =>
    have hk2 : (k : Int) < N := by push_cast at hk; omega
    obtain ⟨ss, h1, h2, h3⟩ := ih (by omega)
    obtain ⟨hs, hle⟩ := goSlice_shard proxies N hN k hk2
    refine ⟨ss ++ [(proxies.drop (shardCut proxies.length N k)).take
        (shardCut proxies.length N (k + 1) - shardCut proxies.length N k)], ?_, ?_, ?_⟩
    · rw [List.range_succ, List.map_append, List.map_singleton, hs, allSome_snoc, h1]
      rfl
    · simp [h2]
    · rw [List.flatten_append, h3]
      simp only [List.flatten_cons, List.flatten_nil, List.append_nil]
      exact take_append_take_drop proxies _ _ hle

/-- For a positive concurrency the spawning loop never panics, starts exactly
`Concurrent` workers, and the slices in worker order concatenate to the node list. -/
theorem spawnShards_flatten {α : Type} (proxies : List α) (N : Int) (hN : 1 ≤ N) :
    ∃ ss, spawnShards proxies N = some ss ∧ (ss.length : Int) = N ∧ ss.flatten = proxies := by
  obtain ⟨ss, h1, h2, h3⟩ := spawnShards_take proxies N hN N.toNat (by omega)
  refine ⟨ss, ?_, ?_, ?_⟩
  · rw [spawnShards, if_neg (by omega)]
    exact h1
  · rw [h2]
    omega
  · rw [h3]
    have hc : ((N.toNat : Nat) : Int) = N := by omega
    simp [shardCut, hc]

/-! ## Lemmas on the fetcher -/

theorem appendProxies_eq (entries : List GoAny) (proxies : List Node) :
    appendProxies entries proxies = proxies ++ entries.filterMap asStringMap := by
  induction entries generalizing proxies with
  | nil => simp [appendProxies]
  | cons x rest ih =>
    cases hx : asStringMap x with
    | none => simp [appendProxies, hx, ih, List.filterMap_cons]
    | some m => simp [appendProxies, hx, ih, List.filterMap_cons]

theorem collectProxies_eq (doc : Node) (proxies : List Node) :
    collectProxies doc proxies = proxies ++ documentNodes doc := by
  unfold collectProxies documentNodes
  cases h : mapLookup doc "proxies" with
  | none => simp
  | some v =>
    cases v <;> simp [asSlice, appendProxies_eq]

theorem failedAttempts_zero (i : Nat) (url : String) (first : Nat) :
    failedAttempts i url first 0 = [] := rfl

theorem failedAttempts_succ (i : Nat) (url : String) (first k : Nat) :
    failedAttempts i url first (k + 1) =
      Event.get i url :: Event.sleep (Second * ((first : Int) + 1)) ::
        failedAttempts i url (first + 1) k := by
  unfold failedAttempts
  rw [List.range_succ_eq_map, List.flatMap_cons, List.flatMap_map]
  simp only [Nat.add_zero, List.cons_append, List.nil_append, Nat.succ_eq_add_one]
  congr 2
  congr 1
  funext j
  have : first + (j + 1) = first + 1 + j := by omega
  rw [this]

/-- The retry loop when the attempt `retries + k` is the first one without error. -/
theorem retryLoop_success (fenv : FetchEnv) (i : Nat) (url : String) (k : Nat) :
    ∀ (remaining retries : Nat) (st : Option Response × Option String) (resp : Response),
      k < remaining → (∀ j, j < k → FailsAt fenv i url (retries + j)) →
      fenv.httpGet i url (retries + k) = .ok resp →
      retryLoop fenv i url remaining retries st =
        ((some resp, none), failedAttempts i url retries k ++ [Event.get i url]) := by
  induction k with
  | zero =>
    intro remaining retries st resp hk _ hok
    obtain ⟨r, rfl⟩ : ∃ r, remaining = r + 1 := ⟨remaining - 1, by omega⟩
    simp only [Nat.add_zero] at hok
    simp [retryLoop, hok, failedAttempts_zero]
  | succ k ih =>
    intro remaining retries st resp hk hfail hok
    obtain ⟨r, rfl⟩ : ∃ r, remaining = r + 1 := ⟨remaining - 1, by omega⟩
    obtain ⟨e, he⟩ := hfail 0 (by omega)
    simp only [Nat.add_zero] at he
    have hrec := ih r (retries + 1) (none, some e) resp (by omega)
      (fun j hj => by
        have := hfail (j + 1) (by omega)
        rwa [show retries + (j + 1) = retries + 1 + j by omega] at this)
      (by rwa [show retries + 1 + k = retries + (k + 1) by omega])
    simp [retryLoop, he, hrec, failedAttempts_succ]

/-- The retry loop when all remaining attempts fail. -/
theorem retryLoop_exhausted (fenv : FetchEnv) (i : Nat) (url : String) :
    ∀ (remaining retries : Nat) (st : Option Response × Option String),
      (∀ j, j < remaining + 1 → FailsAt fenv i url (retries + j)) →
      ∃ e, fenv.httpGet i url (retries + remaining) = .error e ∧
        retryLoop fenv i url (remaining + 1) retries st =
          ((none, some e), failedAttempts i url retries (remaining + 1)) := by
  intro remaining
  induction remaining with
  | zero =>
    intro retries st hfail
    obtain ⟨e, he⟩ := hfail 0 (by omega)
    simp only [Nat.add_zero] at he
    refine ⟨e, by simpa using he, ?_⟩
    simp [retryLoop, he, failedAttempts_succ, failedAttempts_zero]
  | succ r ih =>
    intro retries st hfail
    obtain ⟨e0, he0⟩ := hfail 0 (by omega)
    simp only [Nat.add_zero] at he0
    obtain ⟨e, he, hrec⟩ := ih (retries + 1) (none, some e0)
      (fun j hj => by
        have := hfail (j + 1) (by omega)
        rwa [show retries + (j + 1) = retries + 1 + j by omega] at this)
    refine ⟨e, by rwa [show retries + (r + 1) = retries + 1 + r by omega], ?_⟩
    rw [retryLoop, he0]
    simp only [hrec]
    rw [failedAttempts_succ i url retries (r + 1)]

theorem requestCount_append (i : Nat) (a b : List Event) :
    requestCount i (a ++ b) = requestCount i a + requestCount i b := by
  induction a with
  | nil => simp [requestCount]
  | cons x rest ih =>
    cases x with
    | get j u => simp [requestCount, ih, Nat.add_assoc]
    | sleep d => simp [requestCount, ih]

theorem requestedBelow_append (a b : List Event) :
    requestedBelow (a ++ b) = max (requestedBelow a) (requestedBelow b) := by
  induction a with
  | nil => simp [requestedBelow]
  | cons x rest ih =>
    cases x with
    | get j u => simp [requestedBelow, ih, max_assoc]
    | sleep d => simp [requestedBelow, ih]

/-- The retry loop requests only its own URL, at most `remaining` times, and never ends
with both variables nil once it has run. -/
theorem retryLoop_trace (fenv : FetchEnv) (i : Nat) (url : String) :
    ∀ (remaining retries : Nat) (st : Option Response × Option String),
      requestCount i (retryLoop fenv i url remaining retries st).2 ≤ remaining ∧
      (∀ j, j ≠ i → requestCount j (retryLoop fenv i url remaining retries st).2 = 0) ∧
      requestedBelow (retryLoop fenv i url remaining retries st).2 ≤ i + 1 ∧
      (0 < remaining ∨ st ≠ (none, none) →
        (retryLoop fenv i url remaining retries st).1 ≠ (none, none)) := by
  intro remaining
  induction remaining with
  | zero =>
    intro retries st
    refine ⟨by simp [retryLoop, requestCount], fun j _ => by simp [retryLoop, requestCount],
      by simp [retryLoop, requestedBelow], ?_⟩
    intro h
    rcases h with h | h
    · omega
    · simpa [retryLoop] using h
  | succ r ih =>
    intro retries st
    cases hg : fenv.httpGet i url retries with
    | ok resp =>
      refine ⟨by simp [retryLoop, hg, requestCount], fun j hj => ?_,
        by simp [retryLoop, hg, requestedBelow], fun _ => by simp [retryLoop, hg]⟩
      simp [retryLoop, hg, requestCount]
      omega
    | error e =>
      obtain ⟨h1, h2, h3, h4⟩ := ih (retries + 1) (none, some e)
      refine ⟨?_, fun j hj => ?_, ?_, fun _ => ?_⟩
      · simp only [retryLoop, hg, requestCount, if_true]
        omega
      · have := h2 j hj
        have hne : ¬ i = j := fun h => hj h.symm
        simp only [retryLoop, hg, requestCount, if_neg hne]
        omega
      · simp only [retryLoop, hg, requestedBelow]
        omega
      · simp only [retryLoop, hg]
        exact h4 (Or.inr (by simp))

/-- The message of the error returned for an empty combined node list. -/
theorem fetchLoop_nil (fenv : FetchEnv) (proxies : List Node) :
    fetchLoop fenv [] proxies =
      (if proxies.length = 0 then .err "未找到任何可用节点" else .ok proxies, []) := rfl

/-- One iteration of the URL loop when the URL is retrieved and its body decodes. -/
theorem fetchLoop_cons_retrieved (fenv : FetchEnv) (i : Nat) (url : String) (doc : Node)
    (rest : List (Nat × String)) (proxies : List Node) (h : Retrieved fenv i url doc) :
    (fetchLoop fenv ((i, url) :: rest) proxies).1 =
      (fetchLoop fenv rest (proxies ++ documentNodes doc)).1 := by
  obtain ⟨k, resp, data, hk, hfail, hok, hread, hdec⟩ := h
  have hloop := retryLoop_success fenv i url k 30 0 (none, none) resp hk
    (fun j hj => by simpa using hfail j hj) (by simpa using hok)
  simp only [fetchLoop, hloop, hread, hdec, collectProxies_eq]

theorem fetchLoop_retrieved (fenv : FetchEnv) (l : List (Nat × String)) (docs : List Node)
    (h : List.Forall₂ (fun iu doc => Retrieved fenv iu.1 iu.2 doc) l docs) :
    ∀ proxies : List Node,
      (fetchLoop fenv l proxies).1 =
        (if (proxies ++ docs.flatMap documentNodes).length = 0 then
          .err "未找到任何可用节点"
        else .ok (proxies ++ docs.flatMap documentNodes)) := by
  induction h with
  | nil =>
    intro proxies
    rw [fetchLoop_nil]
    simp only [List.flatMap_nil, List.append_nil]
  | cons hd _ ih =>
    intro proxies
    rw [fetchLoop_cons_retrieved fenv _ _ _ _ proxies hd, ih]
    simp only [List.flatMap_cons, List.append_assoc]

/-- Each URL is requested at most 30 times, and URLs before the first index of the list
are not requested at all. -/
theorem fetchLoop_requestCount (fenv : FetchEnv) (urls : List String) :
    ∀ (n : Nat) (proxies : List Node) (i : Nat),
      requestCount i (fetchLoop fenv (urls.enumFrom n) proxies).2 ≤ 30 ∧
      (i < n → requestCount i (fetchLoop fenv (urls.enumFrom n) proxies).2 = 0) := by
  induction urls with
  | nil =>
    intro n proxies i
    simp [fetchLoop_nil, requestCount]
  | cons u rest ih =>
    intro n proxies i
    obtain ⟨h1, h2, _, _⟩ := retryLoop_trace fenv n u 30 0 (none, none)
    have hi : requestCount i (retryLoop fenv n u 30 0 (none, none)).2 ≤ 30 ∧
        (i < n → requestCount i (retryLoop fenv n u 30 0 (none, none)).2 = 0) := by
      by_cases hin : i = n
      · subst hin
        exact ⟨h1, fun h => absurd h (by omega)⟩
      · have := h2 i hin
        exact ⟨by omega, fun _ => this⟩
    rw [List.enumFrom_cons]
    simp only [fetchLoop]
    split
    · exact hi
    · exact hi
    · split
      · exact hi
      · split
        · exact hi
        · rename_i config _
          obtain ⟨g1, g2⟩ := ih (n + 1) (collectProxies config proxies) i
          simp only [requestCount_append]
          by_cases hin : i = n
          · subst hin
            have := g2 (by omega)
            exact ⟨by omega, fun h => absurd h (by omega)⟩
          · have := h2 i hin
            exact ⟨by omega, fun h => by have := g2 (by omega); omega⟩

/-- A URL whose 30 attempts all fail makes the fetch return an error, and no URL after it
is requested. -/
theorem fetchLoop_exhausted (fenv : FetchEnv) (urls : List String) :
    ∀ (n : Nat) (proxies : List Node) (i : Nat) (url : String),
      (i, url) ∈ urls.enumFrom n → (∀ j, j < 30 → FailsAt fenv i url j) →
      (∃ e, (fetchLoop fenv (urls.enumFrom n) proxies).1 = .err e) ∧
        requestedBelow (fetchLoop fenv (urls.enumFrom n) proxies).2 ≤ i + 1 := by
  induction urls with
  | nil =>
    intro n proxies i url hmem
    simp at hmem
  | cons u rest ih =>
    intro n proxies i url hmem hfail
    rw [List.enumFrom_cons] at hmem ⊢
    obtain ⟨_, _, h3, h4⟩ := retryLoop_trace fenv n u 30 0 (none, none)
    have hne := h4 (Or.inl (by omega))
    rcases List.mem_cons.mp hmem with heq | hmem2
    · obtain ⟨rfl, rfl⟩ := Prod.mk.inj heq
      obtain ⟨e, _, hloop⟩ := retryLoop_exhausted fenv i url 29 0 (none, none)
        (fun j hj => by simpa using hfail j hj)
      have hloop1 : (retryLoop fenv i url 30 0 (none, none)).1 = (none, some e) := by
        rw [hloop]
      simp only [fetchLoop]
      split
      · exact ⟨⟨_, rfl⟩, h3⟩
      · rename_i heq2
        rw [hloop1] at heq2
        simp at heq2
      · rename_i heq2
        rw [hloop1] at heq2
        simp at heq2
    · have hge : n + 1 ≤ i := (List.mem_enumFrom hmem2).1
      simp only [fetchLoop]
      split
      · exact ⟨⟨_, rfl⟩, le_trans h3 (by omega)⟩
      · rename_i heq2
        exact absurd heq2 hne
      · split
        · exact ⟨⟨_, rfl⟩, le_trans h3 (by omega)⟩
        · split
          · exact ⟨⟨_, rfl⟩, le_trans h3 (by omega)⟩
          · rename_i config _
            obtain ⟨g1, g2⟩ := ih (n + 1) (collectProxies config proxies) i url hmem2 hfail
            refine ⟨g1, ?_⟩
            simp only [requestedBelow_append]
            omega

/-- `Start` returns the fetch error, and leaves the receiver as it was, under every schedule. -/
theorem Start_fetch_error (fenv : FetchEnv) (penv : ProbeEnv) (c : Check) (e : String)
    (h : (GetProxyFromSubs fenv c.config).1 = .err e) (sched : List Nat) :
    Start fenv penv c sched = some (.returned (some ("获取节点失败: " ++ e)) c) := by
  simp [Start, startBegin, h]

/-! ## Lemmas on the workers -/

theorem mapLookup_mapSet (m : Node) (k : String) (v : GoAny) :
    mapLookup (mapSet m k v) k = some v := by
  induction m with
  | nil => simp [mapSet, mapLookup]
  | cons kv rest ih =>
    obtain ⟨k', v'⟩ := kv
    by_cases h : k' = k
    · simp [mapSet, mapLookup, h]
    · simp [mapSet, mapLookup, h, ih]

theorem wrapInt32_succ (x : Int) : wrapInt32 (wrapInt32 x + 1) = wrapInt32 (x + 1) := by
  unfold wrapInt32
  omega

theorem wrapInt32_of_lt (n : Nat) (h : n < 2147483648) : wrapInt32 n = n := by
  unfold wrapInt32
  omega

/-- What the probe sequence records for a node that passes both required probes. -/
theorem probeNode_pass (penv : ProbeEnv) (i : Nat) (httpClient : Client) (proxy : Node)
    (hc : (penv.CheckCloudflare i httpClient).2 = none)
    (hc2 : (penv.CheckCloudflare i httpClient).1 = true)
    (hg : (penv.CheckGoogle i httpClient).2 = none)
    (hg2 : (penv.CheckGoogle i httpClient).1 = true) :
    probeNode penv i httpClient proxy =
      .recorded
        { Proxy :=
            mapSet
              (if penv.GetIPCountrynameFromdb (penv.GetIPaddrFromAPI i httpClient) ≠ "" then
                mapSet proxy "name"
                  (.str (penv.GetIPCountrynameFromdb (penv.GetIPaddrFromAPI i httpClient)))
              else mapSet proxy "name" (.str "未识别"))
              "name"
              (.str (penv.Rename
                (if penv.GetIPCountrynameFromdb (penv.GetIPaddrFromAPI i httpClient) ≠ "" then
                  penv.GetIPCountrynameFromdb (penv.GetIPaddrFromAPI i httpClient)
                else "未识别")))
          Cloudflare := true
          Google := true
          Openai := (penv.CheckOpenai i httpClient).1
          Youtube := (penv.CheckYoutube i httpClient).1
          Netflix := (penv.CheckNetflix i httpClient).1
          Disney := (penv.CheckDisney i httpClient).1 } := by
  unfold probeNode
  simp only [hc, hc2, hg, hg2, Option.isSome_none, Bool.not_true, Bool.or_self,
    Bool.false_eq_true, if_false]
  by_cases hcountry : penv.GetIPCountrynameFromdb (penv.GetIPaddrFromAPI i httpClient) = ""
  · simp [hcountry, mapLookup_mapSet, asString]
  · simp [hcountry, mapLookup_mapSet, asString]

/-- The probe sequence skips a node exactly when a required probe fails. -/
theorem probeNode_skipped_iff (penv : ProbeEnv) (i : Nat) (httpClient : Client) (proxy : Node) :
    probeNode penv i httpClient proxy = .skipped ↔
      ¬ (penv.CheckCloudflare i httpClient = (true, none) ∧
        penv.CheckGoogle i httpClient = (true, none)) := by
  rcases hcf : penv.CheckCloudflare i httpClient with ⟨b1, e1⟩
  rcases hgg : penv.CheckGoogle i httpClient with ⟨b2, e2⟩
  by_cases hpass : (b1 = true ∧ e1 = none) ∧ (b2 = true ∧ e2 = none)
  · obtain ⟨⟨rfl, rfl⟩, rfl, rfl⟩ := hpass
    rw [probeNode_pass penv i httpClient proxy (by rw [hcf]) (by rw [hcf]) (by rw [hgg])
      (by rw [hgg])]
    simp
  · have hne : ¬ ((b1, e1) = (true, none) ∧ (b2, e2) = (true, none)) := by
      simpa [Prod.mk.injEq] using hpass
    simp only [hne, not_false_eq_true, iff_true]
    unfold probeNode
    simp only [hcf, hgg]
    cases b1 <;> cases e1 <;> cases b2 <;> cases e2 <;> simp_all

/-- The type assertion on the `"name"` field never panics. -/
theorem probeNode_ne_panicked (penv : ProbeEnv) (i : Nat) (httpClient : Client) (proxy : Node) :
    probeNode penv i httpClient proxy ≠ .panicked := by
  by_cases hpass : penv.CheckCloudflare i httpClient = (true, none) ∧
      penv.CheckGoogle i httpClient = (true, none)
  · rw [probeNode_pass penv i httpClient proxy (by rw [hpass.1]) (by rw [hpass.1])
      (by rw [hpass.2]) (by rw [hpass.2])]
    simp
  · rw [(probeNode_skipped_iff penv i httpClient proxy).mpr hpass]
    simp

/-- The effect of one action of a worker on the shared state and on what the worker has
left to do. -/
theorem workerStep_effect (penv : ProbeEnv) (config : Config) (w w' : Worker)
    (sh sh' : Shared) (h : workerStep penv config w sh = some (w', sh')) :
    ∃ dP new, StepEffect sh sh' dP new ∧
      pendingClients penv config w = pendingClients penv config w' + dP ∧
      busy w' + new.length ≤ busy w + dP ∧
      pendingResults penv config w = new ++ pendingResults penv config w' ∧
      workLeft w' < workLeft w := by
  obtain ⟨cur, queue⟩ := w
  cases cur with
  | some c =>
    obtain ⟨i, proxy, httpClient⟩ := c
    cases hp : probeNode penv i httpClient proxy with
    | skipped =>
      simp only [workerStep, hp, Option.some.injEq, Prod.mk.injEq] at h
      obtain ⟨rfl, rfl⟩ := h
      refine ⟨0, [], ⟨by omega, by simp, rfl, by simp, by simp, by simp⟩, ?_, ?_, ?_, ?_⟩
      · simp [pendingClients]
      · simp [busy]
      · simp [pendingResults, curResult, hp]
      · simp [workLeft, busy]
    | recorded r =>
      simp only [workerStep, hp, Option.some.injEq, Prod.mk.injEq] at h
      obtain ⟨rfl, rfl⟩ := h
      refine ⟨0, [r], ⟨by omega, by simp, rfl, by simp, by simp, by simp⟩, ?_, ?_, ?_, ?_⟩
      · simp [pendingClients]
      · simp [busy]
      · simp [pendingResults, curResult, hp]
      · simp [workLeft, busy]
    | panicked => exact absurd hp (probeNode_ne_panicked penv i httpClient proxy)
  | none =>
    cases queue with
    | nil => simp [workerStep] at h
    | cons x rest =>
      obtain ⟨i, proxy⟩ := x
      cases hc : CreateClient penv config i proxy with
      | none =>
        simp only [workerStep, hc, Option.some.injEq, Prod.mk.injEq] at h
        obtain ⟨rfl, rfl⟩ := h
        refine ⟨0, [], ⟨by omega, by simp, rfl, by simp, by simp, by simp⟩, ?_, ?_, ?_, ?_⟩
        · simp [pendingClients, hasClient, hc]
        · simp [busy]
        · simp [pendingResults, curResult, recordedResult, hc]
        · simp [workLeft, busy]
      | some httpClient =>
        simp only [workerStep, hc, Option.some.injEq, Prod.mk.injEq] at h
        obtain ⟨rfl, rfl⟩ := h
        refine ⟨1, [], ⟨by omega, by simp, rfl, by simp, by simp, by simp⟩, ?_, ?_, ?_, ?_⟩
        · simp [pendingClients, hasClient, hc]
        · simp [busy]
        · simp only [pendingResults, curResult, recordedResult, List.filterMap_cons, hc,
            List.nil_append]
          cases probeNode penv i httpClient proxy <;> simp
        · simp [workLeft, busy]
          omega

/-- A worker that has not finished can act. -/
theorem workerStep_enabled (penv : ProbeEnv) (config : Config) (w : Worker) (sh : Shared)
    (h : w.done = false) : ∃ r, workerStep penv config w sh = some r := by
  obtain ⟨cur, queue⟩ := w
  cases cur with
  | some c =>
    obtain ⟨i, proxy, httpClient⟩ := c
    cases hp : probeNode penv i httpClient proxy <;> simp [workerStep, hp]
  | none =>
    cases queue with
    | nil => simp [Worker.done] at h
    | cons x rest =>
      obtain ⟨i, proxy⟩ := x
      cases hc : CreateClient penv config i proxy <;> simp [workerStep, hc]

/-- The effect of one scheduled action on the shared state and on the work left. -/
theorem stepAt_effect (penv : ProbeEnv) (config : Config) :
    ∀ (k : Nat) (ws ws' : List Worker) (sh sh' : Shared),
      stepAt penv config k ws sh = some (ws', sh') →
      ∃ dP new, StepEffect sh sh' dP new ∧
        (ws.map (pendingClients penv config)).sum =
          (ws'.map (pendingClients penv config)).sum + dP ∧
        (ws'.map busy).sum + new.length ≤ (ws.map busy).sum + dP ∧
        (ws.flatMap (pendingResults penv config)).Perm
          (new ++ ws'.flatMap (pendingResults penv config)) ∧
        (ws'.map workLeft).sum < (ws.map workLeft).sum := by
  intro k ws
  induction ws generalizing k with
  | nil =>
    intro ws' sh sh' h
    cases k <;> simp [stepAt] at h
  | cons w rest ih =>
    intro ws' sh sh' h
    cases k with
    | zero =>
      simp only [stepAt, Option.map_eq_some'] at h
      obtain ⟨⟨w', sh2⟩, hw, hr⟩ := h
      simp only [Prod.mk.injEq] at hr
      obtain ⟨rfl, rfl⟩ := hr
      obtain ⟨dP, new, he, h1, h2, h3, h4⟩ := workerStep_effect penv config w w' sh sh2 hw
      refine ⟨dP, new, he, ?_, ?_, ?_, ?_⟩
      · simp only [List.map_cons, List.sum_cons]
        omega
      · simp only [List.map_cons, List.sum_cons]
        omega
      · simp only [List.flatMap_cons, h3, List.append_assoc]
        exact List.Perm.refl _
      · simp only [List.map_cons, List.sum_cons]
        omega
    | succ k =>
      simp only [stepAt, Option.map_eq_some'] at h
      obtain ⟨⟨rest', sh2⟩, hw, hr⟩ := h
      simp only [Prod.mk.injEq] at hr
      obtain ⟨rfl, rfl⟩ := hr
      obtain ⟨dP, new, he, h1, h2, h3, h4⟩ := ih k rest' sh sh2 hw
      refine ⟨dP, new, he, ?_, ?_, ?_, ?_⟩
      · simp only [List.map_cons, List.sum_cons]
        omega
      · simp only [List.map_cons, List.sum_cons]
        omega
      · simp only [List.flatMap_cons]
        refine (List.Perm.append_left _ h3).trans ?_
        rw [← List.append_assoc, ← List.append_assoc]
        exact List.Perm.append_right _ List.perm_append_comm
      · simp only [List.map_cons, List.sum_cons]
        omega

/-- Some worker can act as long as not all of them have finished. -/
theorem stepAt_enabled (penv : ProbeEnv) (config : Config) (sh : Shared) :
    ∀ ws : List Worker, ws.all Worker.done = false →
      ∃ k r, stepAt penv config k ws sh = some r := by
  intro ws
  induction ws with
  | nil => simp
  | cons w rest ih =>
    intro h
    cases hd : w.done with
    | false =>
      obtain ⟨r, hr⟩ := workerStep_enabled penv config w sh hd
      exact ⟨0, (r.1 :: rest, r.2), by simp [stepAt, hr]⟩
    | true =>
      have hrest : rest.all Worker.done = false := by
        simpa [List.all_cons, hd] using h
      obtain ⟨k, r, hr⟩ := ih hrest
      exact ⟨k + 1, (w :: r.1, r.2), by simp [stepAt, hr]⟩

/-! ## The invariant of the run -/

theorem initRun_sums (penv : ProbeEnv) (config : Config) (shards : List (List (Nat × Node))) :
    ((shards.map (fun q => ({ cur := none, queue := q } : Worker))).map busy).sum = 0 ∧
    ((shards.map (fun q => ({ cur := none, queue := q } : Worker))).map
        (pendingClients penv config)).sum =
      (shards.flatten.filter (hasClient penv config)).length ∧
    (shards.map (fun q => ({ cur := none, queue := q } : Worker))).flatMap
        (pendingResults penv config) =
      shards.flatten.filterMap (recordedResult penv config) := by
  induction shards with
  | nil => simp
  | cons q rest ih =>
    obtain ⟨h1, h2, h3⟩ := ih
    refine ⟨?_, ?_, ?_⟩
    · simpa [busy] using h1
    · simp only [List.map_cons, List.sum_cons, h2, List.flatten_cons, List.filter_append,
        List.length_append, pendingClients]
    · simp only [List.map_cons, List.flatMap_cons, h3, List.flatten_cons,
        List.filterMap_append, pendingResults, curResult, List.nil_append]

/-- The invariant holds right after the spawning loop. -/
theorem RunInv_init (penv : ProbeEnv) (config : Config) (r0 : List Result)
    (shards : List (List (Nat × Node))) :
    RunInv penv config shards.flatten r0 (initRun r0 shards) 0 0 := by
  obtain ⟨h1, h2, h3⟩ := initRun_sums penv config shards
  refine ⟨rfl, rfl, rfl, by simp [initRun], ?_, ?_, ?_⟩
  · simp only [initRun, h1]
    omega
  · simp only [initRun, h2]
    omega
  · simp only [initRun, h3]
    exact List.Perm.refl _

/-- One step keeps the invariant and has the effect of `StepEffect` on the shared state. -/
theorem RunInv_step (penv : ProbeEnv) (config : Config) (all : List (Nat × Node))
    (r0 : List Result) (s s' : RunState) (P a k : Nat)
    (hinv : RunInv penv config all r0 s P a) (hstep : step penv config k s = some s') :
    ∃ dP new, StepEffect s.shared s'.shared dP new ∧
      RunInv penv config all r0 s' (P + dP) (a + new.length) ∧
      (s'.workers.map workLeft).sum < (s.workers.map workLeft).sum := by
  simp only [step, hinv.notPanicked, Bool.false_eq_true, if_false, Option.map_eq_some'] at hstep
  obtain ⟨⟨ws', sh'⟩, hst, rfl⟩ := hstep
  obtain ⟨dP, new, he, h1, h2, h3, h4⟩ := stepAt_effect penv config k s.workers ws' s.shared sh' hst
  refine ⟨dP, new, he, ?_, h4⟩
  obtain ⟨hd, hn, hpan, hprog, hav, hres⟩ := he
  have hinv1 := hinv.available_le
  have hinv2 := hinv.clients_eq
  refine ⟨?_, ?_, ?_, ?_, ?_, ?_, ?_⟩
  · show sh'.panicked = false
    rw [hpan]
    exact hinv.notPanicked
  · show sh'.progress = wrapInt32 ((P + dP : Nat) : Int)
    rw [hprog, hinv.progress_eq]
    have hcases : dP = 0 ∨ dP = 1 := by omega
    rcases hcases with rfl | rfl
    · simp
    · rw [wrapInt32_succ]
      simp
  · show sh'.availableCount = wrapInt32 ((a + new.length : Nat) : Int)
    rw [hav, hinv.available_eq]
    have hcases : new.length = 0 ∨ new.length = 1 := by omega
    rcases hcases with h0 | h1
    · simp [h0]
    · rw [h1, wrapInt32_succ]
      simp
  · show sh'.results.length = r0.length + (a + new.length)
    rw [hres, List.length_append, hinv.length_eq]
    omega
  · show a + new.length + (ws'.map busy).sum ≤ P + dP
    omega
  · show P + dP + (ws'.map (pendingClients penv config)).sum = _
    omega
  · show (sh'.results ++ ws'.flatMap (pendingResults penv config)).Perm _
    rw [hres, List.append_assoc]
    exact (List.Perm.append_left _ h3.symm).trans hinv.results_perm

/-- Every run keeps the invariant: the counts only grow. -/
theorem RunInv_run (penv : ProbeEnv) (config : Config) (all : List (Nat × Node))
    (r0 : List Result) :
    ∀ (sched : List Nat) (s s' : RunState) (P a : Nat),
      RunInv penv config all r0 s P a → run penv config sched s = some s' →
      ∃ P' a', P ≤ P' ∧ a ≤ a' ∧ RunInv penv config all r0 s' P' a' := by
  intro sched
  induction sched with
  | nil =>
    intro s s' P a hinv hrun
    simp only [run, Option.some.injEq] at hrun
    subst hrun
    exact ⟨P, a, le_refl _, le_refl _, hinv⟩
  | cons k rest ih =>
    intro s s' P a hinv hrun
    simp only [run, Option.bind_eq_some] at hrun
    obtain ⟨s1, hs1, hrest⟩ := hrun
    obtain ⟨dP, new, _, hinv1, _⟩ := RunInv_step penv config all r0 s s1 P a k hinv hs1
    obtain ⟨P', a', hP, ha, hinv2⟩ := ih s1 s' _ _ hinv1 hrest
    exact ⟨P', a', by omega, by omega, hinv2⟩

theorem allDone_sums (penv : ProbeEnv) (config : Config) :
    ∀ ws : List Worker, ws.all Worker.done = true →
      (ws.map busy).sum = 0 ∧ (ws.map (pendingClients penv config)).sum = 0 ∧
      ws.flatMap (pendingResults penv config) = [] ∧ (ws.map workLeft).sum = 0 := by
  intro ws
  induction ws with
  | nil => simp
  | cons w rest ih =>
    intro h
    simp only [List.all_cons, Bool.and_eq_true] at h
    obtain ⟨hw, hrest⟩ := h
    obtain ⟨h1, h2, h3, h4⟩ := ih hrest
    obtain ⟨cur, queue⟩ := w
    simp only [Worker.done, Bool.and_eq_true, Option.isNone_iff_eq_none,
      List.isEmpty_iff] at hw
    obtain ⟨rfl, rfl⟩ := hw
    refine ⟨?_, ?_, ?_, ?_⟩
    · simpa [busy] using h1
    · simpa [pendingClients] using h2
    · simpa [pendingResults, curResult] using h3
    · simpa [workLeft, busy] using h4

/-- When all workers have finished, the counters and the result list are determined up to
the order of the results. -/
theorem RunInv_final (penv : ProbeEnv) (config : Config) (all : List (Nat × Node))
    (r0 : List Result) (s : RunState) (P a : Nat)
    (hinv : RunInv penv config all r0 s P a) (hdone : allDone s = true) :
    P = (all.filter (hasClient penv config)).length ∧
    s.shared.progress = wrapInt32 ((all.filter (hasClient penv config)).length : Nat) ∧
    s.shared.results.Perm (r0 ++ all.filterMap (recordedResult penv config)) := by
  obtain ⟨_, h2, h3, _⟩ := allDone_sums penv config s.workers hdone
  have hc := hinv.clients_eq
  have hp := hinv.results_perm
  rw [h2] at hc
  rw [h3, List.append_nil] at hp
  have hP : P = (all.filter (hasClient penv config)).length := by omega
  refine ⟨hP, ?_, hp⟩
  rw [hinv.progress_eq, hP]

/-- From every state that has not panicked the workers can run to completion. -/
theorem run_completes (penv : ProbeEnv) (config : Config) (all : List (Nat × Node))
    (r0 : List Result) :
    ∀ (n : Nat) (s : RunState) (P a : Nat), (s.workers.map workLeft).sum ≤ n →
      RunInv penv config all r0 s P a →
      ∃ sched s', run penv config sched s = some s' ∧ allDone s' = true := by
  intro n
  induction n with
  | zero =>
    intro s P a hn hinv
    cases hd : allDone s with
    | true => exact ⟨[], s, rfl, hd⟩
    | false =>
      obtain ⟨k, r, hr⟩ := stepAt_enabled penv config s.shared s.workers hd
      have hstep : step penv config k s = some { shared := r.2, workers := r.1 } := by
        simp [step, hinv.notPanicked, hr]
      obtain ⟨_, _, _, _, hlt⟩ := RunInv_step penv config all r0 s _ P a k hinv hstep
      omega
  | succ n ih =>
    intro s P a hn hinv
    cases hd : allDone s with
    | true => exact ⟨[], s, rfl, hd⟩
    | false =>
      obtain ⟨k, r, hr⟩ := stepAt_enabled penv config s.shared s.workers hd
      have hstep : step penv config k s = some { shared := r.2, workers := r.1 } := by
        simp [step, hinv.notPanicked, hr]
      obtain ⟨dP, new, _, hinv1, hlt⟩ := RunInv_step penv config all r0 s _ P a k hinv hstep
      obtain ⟨sched, s', hrun, hdone⟩ := ih _ _ _ (by omega) hinv1
      exact ⟨k :: sched, s', by simp [run, hstep, hrun], hdone⟩

/-! ## `Start` and its runs -/

/-- What `startBegin` has done when the workers start. -/
theorem startBegin_ok_inv (fenv : FetchEnv) (c : Check) (s0 : RunState)
    (h : startBegin fenv c = .ok s0) :
    ∃ proxies shards, (GetProxyFromSubs fenv c.config).1 = .ok proxies ∧
      spawnShards proxies.enum c.config.Concurrent = some shards ∧
      s0 = initRun c.results shards := by
  unfold startBegin at h
  cases hf : (GetProxyFromSubs fenv c.config).1 with
  | err e => simp [hf] at h
  | panic => simp [hf] at h
  | ok proxies =>
    cases hs : spawnShards proxies.enum c.config.Concurrent with
    | none => simp [hf, hs] at h
    | some shards =>
      simp only [hf, hs, GoResult.ok.injEq] at h
      exact ⟨proxies, shards, rfl, hs, h.symm⟩

/-- With a positive concurrency the workers start on slices that partition the node list. -/
theorem startBegin_ok (fenv : FetchEnv) (c : Check) (proxies : List Node)
    (hN : 1 ≤ c.config.Concurrent) (hfetch : (GetProxyFromSubs fenv c.config).1 = .ok proxies) :
    ∃ shards, startBegin fenv c = .ok (initRun c.results shards) ∧
      shards.flatten = proxies.enum := by
  obtain ⟨shards, hs, _, hflat⟩ := spawnShards_flatten proxies.enum c.config.Concurrent hN
  exact ⟨shards, by simp [startBegin, hfetch, hs], hflat⟩

/-- The slices never hold more nodes than the list, whatever the concurrency. -/
theorem spawnShards_length_le {α : Type} (xs : List α) (N : Int) (ss : List (List α))
    (h : spawnShards xs N = some ss) : ss.flatten.length ≤ xs.length := by
  by_cases hN : 1 ≤ N
  · obtain ⟨ss', hs, _, hflat⟩ := spawnShards_flatten xs N hN
    rw [hs] at h
    cases h
    rw [hflat]
  · unfold spawnShards at h
    by_cases h0 : N = 0
    · simp [h0] at h
    · have hz : N.toNat = 0 := by omega
      simp only [h0, if_false, hz, List.range_zero, List.map_nil, allSome,
        Option.some.injEq] at h
      subst h
      simp

/-- Every reachable state of a run of `Start` satisfies the invariant. -/
theorem reachable_inv (fenv : FetchEnv) (penv : ProbeEnv) (c : Check) (s0 s : RunState)
    (h0 : startBegin fenv c = .ok s0) (hr : Reachable penv c.config s0 s) :
    ∃ proxies shards P a, (GetProxyFromSubs fenv c.config).1 = .ok proxies ∧
      spawnShards proxies.enum c.config.Concurrent = some shards ∧
      RunInv penv c.config shards.flatten c.results s P a := by
  obtain ⟨proxies, shards, hf, hs, rfl⟩ := startBegin_ok_inv fenv c s0 h0
  obtain ⟨sched, hrun⟩ := hr
  obtain ⟨P, a, _, _, hinv⟩ := RunInv_run penv c.config shards.flatten c.results sched _ s 0 0
    (RunInv_init penv c.config c.results shards) hrun
  exact ⟨proxies, shards, P, a, hf, hs, hinv⟩

/-- With a positive concurrency, `Start` completes under some schedule, and whenever it
ends it returns `nil` from a state in which all workers have finished. -/
theorem Start_final (fenv : FetchEnv) (penv : ProbeEnv) (c : Check) (proxies : List Node)
    (hN : 1 ≤ c.config.Concurrent) (hfetch : (GetProxyFromSubs fenv c.config).1 = .ok proxies) :
    (∃ sched c', Start fenv penv c sched = some (.returned none c')) ∧
    ∀ sched res, Start fenv penv c sched = some res →
      ∃ s0 s P a, startBegin fenv c = .ok s0 ∧ run penv c.config sched s0 = some s ∧
        res = .returned none { c with results := s.shared.results } ∧
        allDone s = true ∧ RunInv penv c.config proxies.enum c.results s P a := by
  obtain ⟨shards, hb, hflat⟩ := startBegin_ok fenv c proxies hN hfetch
  have hinit := RunInv_init penv c.config c.results shards
  rw [hflat] at hinit
  refine ⟨?_, ?_⟩
  · obtain ⟨sched, s, hrun, hdone⟩ := run_completes penv c.config proxies.enum c.results _
      (initRun c.results shards) 0 0 (le_refl _) hinit
    obtain ⟨P, a, _, _, hinv⟩ := RunInv_run penv c.config proxies.enum c.results sched _ s 0 0
      hinit hrun
    exact ⟨sched, { c with results := s.shared.results },
      by simp [Start, hb, hrun, hinv.notPanicked, hdone]⟩
  · intro sched res hres
    simp only [Start, hb] at hres
    cases hrun : run penv c.config sched (initRun c.results shards) with
    | none => simp [hrun] at hres
    | some s =>
      obtain ⟨P, a, _, _, hinv⟩ := RunInv_run penv c.config proxies.enum c.results sched _ s 0 0
        hinit hrun
      simp only [hrun, hinv.notPanicked, Bool.false_eq_true, if_false] at hres
      cases hdone : allDone s with
      | false => simp [hdone] at hres
      | true =>
        simp only [hdone, if_true, Option.some.injEq] at hres
        exact ⟨_, s, P, a, hb, hrun, hres.symm, hdone, hinv⟩

/-- When a node has a result: its client is built and both required probes
answer `(true, nil)`. -/
theorem recordedResult_isSome_iff (penv : ProbeEnv) (config : Config) (i : Nat)
    (proxy : Node) :
    (recordedResult penv config (i, proxy)).isSome = true ↔
      ∃ httpClient, CreateClient penv config i proxy = some httpClient ∧
        penv.CheckCloudflare i httpClient = (true, none) ∧
        penv.CheckGoogle i httpClient = (true, none) := by
  unfold recordedResult
  cases hc : CreateClient penv config i proxy with
  | none => simp
  | some httpClient =>
    simp only [Option.some.injEq, exists_eq_left']
    by_cases hpass : penv.CheckCloudflare i httpClient = (true, none) ∧
        penv.CheckGoogle i httpClient = (true, none)
    · rw [probeNode_pass penv i httpClient proxy (by rw [hpass.1]) (by rw [hpass.1])
        (by rw [hpass.2]) (by rw [hpass.2])]
      simpa using hpass
    · rw [(probeNode_skipped_iff penv i httpClient proxy).mpr hpass]
      simpa using hpass

theorem mapLookup_mapSet_ne (m : Node) (k k' : String) (v : GoAny) (h : k' ≠ k) :
    mapLookup (mapSet m k v) k' = mapLookup m k' := by
  induction m with
  | nil => simp [mapSet, mapLookup, h.symm]
  | cons kv rest ih =>
    obtain ⟨k0, v0⟩ := kv
    by_cases h0 : k0 = k
    · subst h0
      simp [mapSet, mapLookup, h.symm]
    · by_cases h1 : k0 = k'
      · subst h1
        simp [mapSet, mapLookup, h0]
      · simp [mapSet, mapLookup, h0, h1, ih]

/-- The result of a node that passes both required probes. -/
theorem recordedResult_pass (penv : ProbeEnv) (config : Config) (i : Nat) (proxy : Node)
    (httpClient : Client) (hc : CreateClient penv config i proxy = some httpClient)
    (hcf : penv.CheckCloudflare i httpClient = (true, none))
    (hgg : penv.CheckGoogle i httpClient = (true, none)) :
    ∃ r, recordedResult penv config (i, proxy) = some r ∧
      r.Cloudflare = true ∧ r.Google = true ∧
      r.Openai = (penv.CheckOpenai i httpClient).1 ∧
      r.Youtube = (penv.CheckYoutube i httpClient).1 ∧
      r.Netflix = (penv.CheckNetflix i httpClient).1 ∧
      r.Disney = (penv.CheckDisney i httpClient).1 ∧
      mapLookup r.Proxy "name" = some (.str (penv.Rename
        (if penv.GetIPCountrynameFromdb (penv.GetIPaddrFromAPI i httpClient) ≠ "" then
          penv.GetIPCountrynameFromdb (penv.GetIPaddrFromAPI i httpClient)
        else "未识别"))) ∧
      ∀ k, k ≠ "name" → mapLookup r.Proxy k = mapLookup proxy k := by
  have hp := probeNode_pass penv i httpClient proxy (by rw [hcf]) (by rw [hcf]) (by rw [hgg])
    (by rw [hgg])
  simp only [recordedResult, hc, hp]
  refine ⟨_, rfl, ?_⟩
  refine ⟨rfl, rfl, rfl, rfl, rfl, rfl, ?_, ?_⟩
  · exact mapLookup_mapSet _ _ _
  · intro k hk
    simp only
    rw [mapLookup_mapSet_ne _ _ _ _ hk]
    split <;> exact mapLookup_mapSet_ne _ _ _ _ hk

/-- The counts of the invariant are bounded by the number of nodes. -/
theorem RunInv_bounds (penv : ProbeEnv) (config : Config) (all : List (Nat × Node))
    (r0 : List Result) (s : RunState) (P a : Nat) (hinv : RunInv penv config all r0 s P a) :
    a ≤ P ∧ P ≤ all.length := by
  have h1 := hinv.available_le
  have h2 := hinv.clients_eq
  have h3 : (all.filter (hasClient penv config)).length ≤ all.length := List.length_filter_le _ _
  omega

/-- A call of `Start` that returns `nil` has run its workers to completion. -/
theorem Start_returned_inv (fenv : FetchEnv) (penv : ProbeEnv) (c c' : Check)
    (sched : List Nat) (h : Start fenv penv c sched = some (.returned none c')) :
    ∃ s0 s, startBegin fenv c = .ok s0 ∧ run penv c.config sched s0 = some s ∧
      allDone s = true ∧ c' = { c with results := s.shared.results } := by
  unfold Start at h
  cases hb : startBegin fenv c with
  | err e => simp [hb] at h
  | panic => simp [hb] at h
  | ok s0 =>
    simp only [hb] at h
    cases hrun : run penv c.config sched s0 with
    | none => simp [hrun] at h
    | some s =>
      simp only [hrun] at h
      cases hp : s.shared.panicked with
      | true => simp [hp] at h
      | false =>
        cases hd : allDone s with
        | false => simp [hp, hd] at h
        | true =>
          simp only [hp, hd, Bool.false_eq_true, if_false, if_true, Option.some.injEq,
            StartResult.returned.injEq, true_and] at h
          exact ⟨s0, s, rfl, hrun, hd, h.symm⟩

theorem reachable_step (penv : ProbeEnv) (config : Config) (s0 s t : RunState)
    (hr : Reachable penv config s0 s) (hst : Step penv config s t) :
    Reachable penv config s0 t := by
  obtain ⟨sched, hrun⟩ := hr
  obtain ⟨k, hk⟩ := hst
  refine ⟨sched ++ [k], ?_⟩
  induction sched generalizing s0 with
  | nil =>
    simp only [run, Option.some.injEq] at hrun
    subst hrun
    simp [run, hk]
  | cons j rest ih =>
    simp only [run, Option.bind_eq_some] at hrun
    obtain ⟨s1, hs1, hrest⟩ := hrun
    simp only [List.cons_append, run, hs1, Option.some_bind]
    exact ih s1 hrest

theorem filterMap_replicate_strMap (n : Nat) :
    (List.replicate n (GoAny.strMap nodeA)).filterMap asStringMap = List.replicate n nodeA := by
  induction n with
  | zero => rfl
  | succ n ih => simp [List.replicate_succ, List.filterMap_cons, asStringMap, ih]

/-- The fetch of `manyNodesFetch n` returns `n` nodes. -/
theorem manyNodes_fetch (n : Nat) (hn : 0 < n) :
    (GetProxyFromSubs (manyNodesFetch n) oneWorkerConfig).1 = .ok (List.replicate n nodeA) := by
  have hdocs : List.Forall₂ (fun iu doc => Retrieved (manyNodesFetch n) iu.1 iu.2 doc)
      oneWorkerConfig.SubUrls.enum [manyNodesDoc n] :=
    List.Forall₂.cons ⟨0, { readAll := .ok "" }, "", by decide, fun j hj => by omega,
      rfl, rfl, rfl⟩ List.Forall₂.nil
  have hres := fetchLoop_retrieved (manyNodesFetch n) _ _ hdocs []
  have hnodes : [manyNodesDoc n].flatMap documentNodes = List.replicate n nodeA := by
    simp only [List.flatMap_cons, List.flatMap_nil, List.append_nil, documentNodes,
      manyNodesDoc, mapLookup, if_true]
    exact filterMap_replicate_strMap n
  rw [hnodes] at hres
  rw [GetProxyFromSubs, hres, List.nil_append, List.length_replicate, if_neg (by omega)]

/-- A completed run over `n` nodes that all get a client and all fail the first probe. -/
theorem manyNodes_rejecting (n : Nat) (hn : 0 < n) :
    ∃ s0 s, startBegin (manyNodesFetch n) (New oneWorkerConfig) = .ok s0 ∧
      Reachable rejectingProbe oneWorkerConfig s0 s ∧ allDone s = true ∧
      s.shared.progress = wrapInt32 n ∧ s.shared.availableCount = 0 ∧
      s.shared.results = [] := by
  obtain ⟨shards, hb, hflat⟩ := startBegin_ok (manyNodesFetch n) (New oneWorkerConfig)
    (List.replicate n nodeA) (by decide) (manyNodes_fetch n hn)
  have hinit := RunInv_init rejectingProbe oneWorkerConfig [] shards
  obtain ⟨sched, s, hrun, hdone⟩ := run_completes rejectingProbe oneWorkerConfig _ []
    _ (initRun [] shards) 0 0 (le_refl _) hinit
  obtain ⟨P, a, _, _, hinv⟩ := RunInv_run rejectingProbe oneWorkerConfig _ [] sched _ s 0 0
    hinit hrun
  obtain ⟨_, hprog, hperm⟩ := RunInv_final rejectingProbe oneWorkerConfig _ [] s P a hinv hdone
  have hall : shards.flatten.filter (hasClient rejectingProbe oneWorkerConfig)
      = shards.flatten := List.filter_eq_self.mpr (fun x _ => rfl)
  have hnone : shards.flatten.filterMap (recordedResult rejectingProbe oneWorkerConfig) = [] :=
    List.filterMap_eq_nil_iff.mpr (fun x _ => rfl)
  rw [hnone] at hperm
  have hres : s.shared.results = [] := List.Perm.eq_nil hperm
  have hlen := hinv.length_eq
  rw [hres] at hlen
  have ha : a = 0 := by simpa using hlen.symm
  refine ⟨_, s, hb, ⟨sched, hrun⟩, hdone, ?_, ?_, hres⟩
  · rw [hprog, hall, hflat, List.enum_length, List.length_replicate]
  · rw [hinv.available_eq, ha]
    rfl

/-- A completed run over `n` nodes that all pass both required probes. -/
theorem manyNodes_accepting (n : Nat) (hn : 0 < n) :
    ∃ s0 s, startBegin (manyNodesFetch n) (New oneWorkerConfig) = .ok s0 ∧
      Reachable acceptingProbe oneWorkerConfig s0 s ∧ allDone s = true ∧
      s.shared.availableCount = wrapInt32 n ∧ s.shared.results.length = n := by
  obtain ⟨shards, hb, hflat⟩ := startBegin_ok (manyNodesFetch n) (New oneWorkerConfig)
    (List.replicate n nodeA) (by decide) (manyNodes_fetch n hn)
  have hinit := RunInv_init acceptingProbe oneWorkerConfig [] shards
  obtain ⟨sched, s, hrun, hdone⟩ := run_completes acceptingProbe oneWorkerConfig _ []
    _ (initRun [] shards) 0 0 (le_refl _) hinit
  obtain ⟨P, a, _, _, hinv⟩ := RunInv_run acceptingProbe oneWorkerConfig _ [] sched _ s 0 0
    hinit hrun
  obtain ⟨_, _, hperm⟩ := RunInv_final acceptingProbe oneWorkerConfig _ [] s P a hinv hdone
  have hsome : ∀ x : Nat × Node,
      (recordedResult acceptingProbe oneWorkerConfig x).isSome = true := by
    intro x
    exact (recordedResult_isSome_iff acceptingProbe oneWorkerConfig x.1 x.2).mpr
      ⟨_, rfl, rfl, rfl⟩
  have hcount : ∀ l : List (Nat × Node),
      (l.filterMap (recordedResult acceptingProbe oneWorkerConfig)).length = l.length := by
    intro l
    induction l with
    | nil => rfl
    | cons x rest ih =>
      obtain ⟨r, hr⟩ := Option.isSome_iff_exists.mp (hsome x)
      simp [List.filterMap_cons, hr, ih]
  have hlen2 : s.shared.results.length = n := by
    rw [hperm.length_eq, List.nil_append, hcount, hflat, List.enum_length,
      List.length_replicate]
  have hlen := hinv.length_eq
  have ha : a = n := by
    rw [hlen2] at hlen
    simpa using hlen.symm
  refine ⟨_, s, hb, ⟨sched, hrun⟩, hdone, ?_, hlen2⟩
  rw [hinv.available_eq, ha]

/-- With a positive concurrency and an empty result list at the start, `Start` returns
`nil` and the result list is, up to order, the list of the results of the nodes. -/
theorem Start_results_perm (fenv : FetchEnv) (penv : ProbeEnv) (c : Check)
    (proxies : List Node) (hN : 1 ≤ c.config.Concurrent)
    (hfetch : (GetProxyFromSubs fenv c.config).1 = .ok proxies) (hnew : c.results = [])
    (sched : List Nat) (res : StartResult) (h : Start fenv penv c sched = some res) :
    ∃ c', res = .returned none c' ∧
      (GetResults c').Perm (proxies.enum.filterMap (recordedResult penv c.config)) := by
  obtain ⟨s0, s, P, a, _, _, hres, hdone, hinv⟩ :=
    (Start_final fenv penv c proxies hN hfetch).2 sched res h
  obtain ⟨_, _, hperm⟩ := RunInv_final penv c.config _ _ s P a hinv hdone
  rw [hnew, List.nil_append] at hperm
  exact ⟨_, hres, hperm⟩

/-- The result of a node of the list that passes both required probes is in the result list. -/
theorem Start_records (penv : ProbeEnv) (c c' : Check)
    (proxies : List Node)
    (hperm : (GetResults c').Perm (proxies.enum.filterMap (recordedResult penv c.config)))
    (i : Nat) (proxy : Node) (r : Result) (hmem : (i, proxy) ∈ proxies.enum)
    (hr : recordedResult penv c.config (i, proxy) = some r) : r ∈ GetResults c' :=
  hperm.mem_iff.mpr (List.mem_filterMap.mpr ⟨(i, proxy), hmem, hr⟩)

theorem scenario_fetch :
    (GetProxyFromSubs scenarioFetch scenarioConfig).1 = .ok [nodeA, nodeB, nodeC] := rfl

theorem scenario_start :
    Start scenarioFetch scenarioProbe (New scenarioConfig) [0, 1, 1, 0, 1] =
      some (.returned none { config := scenarioConfig, results := [scenarioResult] }) := rfl

theorem scenario_begin :
    startBegin scenarioFetch (New scenarioConfig) =
      .ok (initRun [] [[(0, nodeA)], [(1, nodeB), (2, nodeC)]]) := rfl

theorem wrapInt32_two_pow_31 : wrapInt32 ((2147483648 : Nat) : Int) = -2147483648 := by
  unfold wrapInt32
  omega

/-! ## Claims on the shard partition -/

/-- C1: for a node list of length `L ≥ 1` and a concurrency `N` with `1 ≤ N ≤ L`, with
`shardSize = floor(L / N)`, worker `i < N - 1` gets `[i * shardSize, (i + 1) * shardSize)` and
worker `N - 1` gets `[(N - 1) * shardSize, L)`; every index of `[0, L)` lies in the range of
exactly one worker, every range lies inside `[0, L)`, two different workers share no index,
the shard size is at least one, and the slices handed out, in worker order, concatenate to
the node list. -/
theorem shard_partition (proxies : List Node) (N : Int) (hL : 1 ≤ (proxies.length : Int))
    (hN : 1 ≤ N) (hNL : N ≤ (proxies.length : Int)) :
    (∀ i, 0 ≤ i → i < N - 1 →
      shardRange proxies.length N i =
        (i * ((proxies.length : Int) / N), (i + 1) * ((proxies.length : Int) / N))) ∧
    shardRange proxies.length N (N - 1) =
      ((N - 1) * ((proxies.length : Int) / N), (proxies.length : Int)) ∧
    (∀ j, 0 ≤ j → j < (proxies.length : Int) →
      ∃! i, (0 ≤ i ∧ i < N) ∧
        (shardRange proxies.length N i).1 ≤ j ∧ j < (shardRange proxies.length N i).2) ∧
    (∀ i j, 0 ≤ i → i < N → (shardRange proxies.length N i).1 ≤ j →
      j < (shardRange proxies.length N i).2 → 0 ≤ j ∧ j < (proxies.length : Int)) ∧
    (∀ i k j, 0 ≤ i → i < k → k < N →
      ¬ ((shardRange proxies.length N i).1 ≤ j ∧ j < (shardRange proxies.length N i).2 ∧
        (shardRange proxies.length N k).1 ≤ j ∧ j < (shardRange proxies.length N k).2)) ∧
    1 ≤ (proxies.length : Int) / N ∧
    (∃ ss, spawnShards proxies N = some ss ∧ (ss.length : Int) = N ∧ ss.flatten = proxies) := by
  have hL0 : (0 : Int) ≤ (proxies.length : Int) := by omega
  refine ⟨?_, ?_, ?_, ?_, ?_, ?_, ?_⟩
  · intro i _ hi
    exact shardRange_not_last _ N i hL0 hN (by omega)
  · exact shardRange_last _ N hL0 hN
  · intro j h0 hj
    exact shardRange_unique_owner _ N j hN h0 hj
  · intro i j h0 hi h1 h2
    have hb := shardRange_bounds _ N i hL0 hN h0 hi
    omega
  · intro i k j _ hik hk h
    have := shardRange_ordered _ N i k hL0 hN hik hk
    omega
  · exact Int.le_ediv_of_mul_le (by omega) (by omega)
  · exact spawnShards_flatten proxies N hN

/-- C1 at five nodes and two workers: the ranges are `[0, 2)` and `[2, 5)`. -/
theorem shard_partition_witness :
    (1 : Int) ≤ 5 ∧ (2 : Int) ≤ 5 ∧
      shardRange 5 2 0 = (0, 2) ∧ shardRange 5 2 1 = (2, 5) ∧
      (∃ i : Int, (0 ≤ i ∧ i < 2) ∧ (shardRange 5 2 i).1 ≤ 4 ∧ 4 < (shardRange 5 2 i).2) := by
  have h := shard_partition (List.replicate 5 []) 2 (by decide) (by decide) (by decide)
  refine ⟨by decide, by decide, ?_, ?_, ?_⟩
  · have h0 := h.1 0 (by decide) (by decide)
    simpa using h0
  · have h1 := h.2.1
    simpa using h1
  · have h2 := (h.2.2.1 4 (by decide) (by decide)).exists
    simpa using h2

/-- C10: for a node list of any length `L ≥ 0` and any concurrency `N ≥ 1`, also `N > L`,
every worker range satisfies `0 ≤ start ≤ end ≤ L` and its slice expression does not panic;
the spawning loop does not panic (the division is by a non-zero count) and hands out `N`
slices that concatenate to the node list; every index is in exactly one range; and when
`N > L` the shard size is `0`, workers `0 .. N - 2` get the empty range `[0, 0)` and the
last worker gets `[0, L)`. -/
theorem shard_bounds_any_concurrency (proxies : List Node) (N : Int) (hN : 1 ≤ N) :
    (∀ i, 0 ≤ i → i < N →
      0 ≤ (shardRange proxies.length N i).1 ∧
      (shardRange proxies.length N i).1 ≤ (shardRange proxies.length N i).2 ∧
      (shardRange proxies.length N i).2 ≤ (proxies.length : Int) ∧
      (goSlice proxies (shardRange proxies.length N i).1
        (shardRange proxies.length N i).2).isSome = true) ∧
    (∃ ss, spawnShards proxies N = some ss ∧ (ss.length : Int) = N ∧ ss.flatten = proxies) ∧
    (∀ j, 0 ≤ j → j < (proxies.length : Int) →
      ∃! i, (0 ≤ i ∧ i < N) ∧
        (shardRange proxies.length N i).1 ≤ j ∧ j < (shardRange proxies.length N i).2) ∧
    ((proxies.length : Int) < N →
      Int.tdiv proxies.length N = 0 ∧
      (∀ i, 0 ≤ i → i < N - 1 → shardRange proxies.length N i = (0, 0)) ∧
      shardRange proxies.length N (N - 1) = (0, (proxies.length : Int))) := by
  have hL0 : (0 : Int) ≤ (proxies.length : Int) := Int.natCast_nonneg _
  refine ⟨?_, spawnShards_flatten proxies N hN, ?_, ?_⟩
  · intro i h0 hi
    have hb := shardRange_bounds _ N i hL0 hN h0 hi
    refine ⟨hb.1, hb.2.1, hb.2.2, ?_⟩
    rw [goSlice, if_pos hb]
    rfl
  · intro j h0 hj
    exact shardRange_unique_owner _ N j hN h0 hj
  · intro hlt
    have hz : (proxies.length : Int) / N = 0 := Int.ediv_eq_zero_of_lt hL0 hlt
    refine ⟨?_, ?_, ?_⟩
    · rw [tdiv_nonneg_eq _ N hL0 hN, hz]
    · intro i _ hi
      rw [shardRange_not_last _ N i hL0 hN (by omega), hz]
      simp
    · rw [shardRange_last _ N hL0 hN, hz]
      simp

/-- C10 at two nodes and five workers: workers `0 .. 3` get `[0, 0)`, worker `4` gets `[0, 2)`. -/
theorem shard_bounds_any_concurrency_witness :
    (1 : Int) ≤ 5 ∧ shardRange 2 5 3 = (0, 0) ∧ shardRange 2 5 4 = (0, 2) ∧
      (goSlice (List.replicate 2 ([] : Node)) (shardRange 2 5 4).1 (shardRange 2 5 4).2).isSome
        = true := by
  have h := shard_bounds_any_concurrency (List.replicate 2 []) 5 (by decide)
  refine ⟨by decide, ?_, ?_, ?_⟩
  · have h3 := (h.2.2.2 (by decide)).2.1 3 (by decide) (by decide)
    simpa using h3
  · have h4 := (h.2.2.2 (by decide)).2.2
    simpa using h4
  · have h5 := (h.1 4 (by decide) (by decide)).2.2.2
    simpa using h5

/-! ## Claims on the fetcher -/

/-- C7: when every URL is retrieved within its attempts and its body decodes to a document,
`GetProxyFromSubs` returns the concatenation, in URL order and in document order, of the
mapping entries of each document's `"proxies"` sequence; a document without the field, with
a null one or with one that is not a sequence adds nothing and does not fail the
operation, entries that are not mappings are skipped, and the operation fails exactly when
this concatenation is empty. -/
theorem node_extraction (fenv : FetchEnv) (config : Config) (docs : List Node)
    (h : List.Forall₂ (fun iu doc => Retrieved fenv iu.1 iu.2 doc) config.SubUrls.enum docs) :
    (docs.flatMap documentNodes ≠ [] →
      (GetProxyFromSubs fenv config).1 = .ok (docs.flatMap documentNodes)) ∧
    (docs.flatMap documentNodes = [] →
      (GetProxyFromSubs fenv config).1 = .err "未找到任何可用节点") ∧
    ((∃ e, (GetProxyFromSubs fenv config).1 = .err e) ↔ docs.flatMap documentNodes = []) ∧
    (∀ (doc : Node) (proxies : List Node),
      (mapLookup doc "proxies" = none → collectProxies doc proxies = proxies) ∧
      (mapLookup doc "proxies" = some .null → collectProxies doc proxies = proxies) ∧
      (∀ v, mapLookup doc "proxies" = some v → asSlice v = none →
        collectProxies doc proxies = proxies) ∧
      (∀ entries, mapLookup doc "proxies" = some (.seq entries) →
        collectProxies doc proxies = proxies ++ entries.filterMap asStringMap)) := by
  have hres := fetchLoop_retrieved fenv _ docs h []
  simp only [List.nil_append] at hres
  have hzero : (docs.flatMap documentNodes).length = 0 ↔ docs.flatMap documentNodes = [] :=
    List.length_eq_zero
  refine ⟨?_, ?_, ?_, ?_⟩
  · intro hne
    rw [GetProxyFromSubs, hres, if_neg (fun hc => hne (hzero.mp hc))]
  · intro he
    rw [GetProxyFromSubs, hres, if_pos (hzero.mpr he)]
  · rw [GetProxyFromSubs, hres]
    constructor
    · rintro ⟨e, he⟩
      by_contra hne
      rw [if_neg (fun hc => hne (hzero.mp hc))] at he
      cases he
    · intro he
      exact ⟨_, by rw [if_pos (hzero.mpr he)]⟩
  · intro doc proxies
    refine ⟨?_, ?_, ?_, ?_⟩
    · intro hl
      simp [collectProxies, hl]
    · intro hl
      simp [collectProxies, hl]
    · intro v hl hv
      cases v <;> simp_all [collectProxies, asSlice]
    · intro entries hl
      simp [collectProxies, hl, asSlice, appendProxies_eq]

/-- C7 on two URLs: the first document has three mapping entries and one entry that is not
a mapping, the second has no `"proxies"` field; three nodes are returned and no error. -/
theorem node_extraction_witness :
    List.Forall₂ (fun iu doc => Retrieved scenarioFetch iu.1 iu.2 doc)
        scenarioConfig.SubUrls.enum [docWithProxies, docWithoutProxies] ∧
      (GetProxyFromSubs scenarioFetch scenarioConfig).1 = .ok [nodeA, nodeB, nodeC] := by
  have hdocs : List.Forall₂ (fun iu doc => Retrieved scenarioFetch iu.1 iu.2 doc)
      scenarioConfig.SubUrls.enum [docWithProxies, docWithoutProxies] := by
    refine List.Forall₂.cons ?_ (List.Forall₂.cons ?_ List.Forall₂.nil)
    · refine ⟨2, { readAll := .ok "first" }, "first", by decide, ?_, rfl, rfl, rfl⟩
      intro j hj
      refine ⟨"timeout", ?_⟩
      have : j = 0 ∨ j = 1 := by omega
      rcases this with rfl | rfl <;> rfl
    · exact ⟨0, { readAll := .ok "second" }, "second", by decide, fun j hj => by omega,
        rfl, rfl, rfl⟩
  refine ⟨hdocs, ?_⟩
  have hnodes : [docWithProxies, docWithoutProxies].flatMap documentNodes
      = [nodeA, nodeB, nodeC] := rfl
  have h := (node_extraction scenarioFetch scenarioConfig _ hdocs).1
  rw [hnodes] at h
  exact h (by simp)

/-- C8: every URL is requested at most 30 times; the requests for a URL stop at the first
attempt without a transport error and the `k`-th failed attempt is followed by a sleep of
`k` seconds; when all 30 attempts of some URL fail, `GetProxyFromSubs` returns an error (and
so no nodes), no later URL is requested, and `Start` returns an error and leaves the result
list as it was, under every schedule. -/
theorem retry_fatal (fenv : FetchEnv) (config : Config) :
    (∀ i, requestCount i (GetProxyFromSubs fenv config).2 ≤ 30) ∧
    (∀ i url k resp, k < 30 → (∀ j, j < k → FailsAt fenv i url j) →
      fenv.httpGet i url k = .ok resp →
      retryLoop fenv i url 30 0 (none, none) =
        ((some resp, none), failedAttempts i url 0 k ++ [Event.get i url])) ∧
    (∀ i url, (∀ j, j < 30 → FailsAt fenv i url j) →
      ∃ e, fenv.httpGet i url 29 = .error e ∧
        retryLoop fenv i url 30 0 (none, none) =
          ((none, some e), failedAttempts i url 0 30)) ∧
    (∀ i url, (i, url) ∈ config.SubUrls.enum → (∀ j, j < 30 → FailsAt fenv i url j) →
      (∃ e, (GetProxyFromSubs fenv config).1 = .err e) ∧
      requestedBelow (GetProxyFromSubs fenv config).2 ≤ i + 1 ∧
      ∀ (penv : ProbeEnv) (results : List Result) (sched : List Nat),
        ∃ e, Start fenv penv { config := config, results := results } sched =
          some (.returned (some e) { config := config, results := results })) := by
  refine ⟨?_, ?_, ?_, ?_⟩
  · intro i
    exact (fetchLoop_requestCount fenv config.SubUrls 0 [] i).1
  · intro i url k resp hk hfail hok
    exact retryLoop_success fenv i url k 30 0 (none, none) resp hk
      (fun j hj => by simpa using hfail j hj) (by simpa using hok)
  · intro i url hfail
    obtain ⟨e, he, hloop⟩ := retryLoop_exhausted fenv i url 29 0 (none, none)
      (fun j hj => by simpa using hfail j hj)
    exact ⟨e, by simpa using he, hloop⟩
  · intro i url hmem hfail
    obtain ⟨⟨e, he⟩, hbelow⟩ := fetchLoop_exhausted fenv config.SubUrls 0 [] i url hmem hfail
    refine ⟨⟨e, he⟩, hbelow, ?_⟩
    intro penv results sched
    exact ⟨_, Start_fetch_error fenv penv { config := config, results := results } e he sched⟩

/-- C8 on three URLs that are unreachable at every attempt: the first URL is requested 30
times, the other two never, and `Start` returns an error with the result list still empty. -/
theorem retry_fatal_witness :
    (∀ j, j < 30 → FailsAt unreachableFetch 0 "https://a.example/sub" j) ∧
      requestCount 0 (GetProxyFromSubs unreachableFetch threeUrlConfig).2 ≤ 30 ∧
      requestedBelow (GetProxyFromSubs unreachableFetch threeUrlConfig).2 ≤ 1 ∧
      ∃ e, Start unreachableFetch scenarioProbe (New threeUrlConfig) [] =
        some (.returned (some e) (New threeUrlConfig)) ∧ GetResults (New threeUrlConfig) = [] := by
  have hfail : ∀ j, j < 30 → FailsAt unreachableFetch 0 "https://a.example/sub" j :=
    fun j _ => ⟨"connection refused", rfl⟩
  have h := retry_fatal unreachableFetch threeUrlConfig
  obtain ⟨_, hbelow, hstart⟩ := h.2.2.2 0 "https://a.example/sub" (List.mem_cons_self _ _)
    hfail
  obtain ⟨e, he⟩ := hstart scenarioProbe [] []
  exact ⟨hfail, h.1 0, hbelow, e, he, rfl⟩

/-! ## Claims on the probe sequence and the result list -/

/-- C2: in a run of `Start` from an empty result list (with a concurrency of at least one and
a successful fetch) the call returns `nil` under every complete schedule, one exists, and
the result list is a permutation of the results of the nodes, where the node at a position
has a result, and only one, exactly when its client is built and `CheckCloudflare` and then
`CheckGoogle` both answer `(true, nil)`; the recorded node is the input node except for its
`"name"` field. -/
theorem result_membership (fenv : FetchEnv) (penv : ProbeEnv) (c : Check)
    (proxies : List Node) (hN : 1 ≤ c.config.Concurrent)
    (hfetch : (GetProxyFromSubs fenv c.config).1 = .ok proxies) (hnew : c.results = []) :
    (∃ sched c', Start fenv penv c sched = some (.returned none c')) ∧
    (∀ sched res, Start fenv penv c sched = some res →
      ∃ c', res = .returned none c' ∧
        (GetResults c').Perm (proxies.enum.filterMap (recordedResult penv c.config))) ∧
    (∀ i proxy, (recordedResult penv c.config (i, proxy)).isSome = true ↔
      ∃ httpClient, CreateClient penv c.config i proxy = some httpClient ∧
        penv.CheckCloudflare i httpClient = (true, none) ∧
        penv.CheckGoogle i httpClient = (true, none)) ∧
    (∀ i proxy r, recordedResult penv c.config (i, proxy) = some r →
      ∀ k, k ≠ "name" → mapLookup r.Proxy k = mapLookup proxy k) := by
  refine ⟨(Start_final fenv penv c proxies hN hfetch).1,
    Start_results_perm fenv penv c proxies hN hfetch hnew,
    recordedResult_isSome_iff penv c.config, ?_⟩
  intro i proxy r hr k hk
  obtain ⟨httpClient, hc, hcf, hgg⟩ :=
    (recordedResult_isSome_iff penv c.config i proxy).mp (by rw [hr]; rfl)
  obtain ⟨r', hr', _, _, _, _, _, _, _, hkeep⟩ :=
    recordedResult_pass penv c.config i proxy httpClient hc hcf hgg
  rw [hr] at hr'
  cases hr'
  exact hkeep k hk

/-- C2 on the three-node scenario: only the node at position 0 passes both required probes,
and the result list holds its result and nothing else. -/
theorem result_membership_witness :
    (1 : Int) ≤ (New scenarioConfig).config.Concurrent ∧
      (GetProxyFromSubs scenarioFetch (New scenarioConfig).config).1
        = .ok [nodeA, nodeB, nodeC] ∧
      (New scenarioConfig).results = [] ∧
      ∃ c', Start scenarioFetch scenarioProbe (New scenarioConfig) [0, 1, 1, 0, 1] =
          some (.returned none c') ∧
        (GetResults c').Perm
          ([nodeA, nodeB, nodeC].enum.filterMap (recordedResult scenarioProbe scenarioConfig)) ∧
        GetResults c' = [scenarioResult] := by
  have h := result_membership scenarioFetch scenarioProbe (New scenarioConfig)
    [nodeA, nodeB, nodeC] (by decide) scenario_fetch rfl
  obtain ⟨c', hc', hperm⟩ := h.2.1 [0, 1, 1, 0, 1] _ scenario_start
  cases hc'
  exact ⟨by decide, scenario_fetch, rfl, _, scenario_start, hperm, rfl⟩

/-- C3, as the code has it: every node of the list that passes both required probes is in
the result list of every completed run, whatever the best-effort probes answer, and the
boolean recorded for `CheckOpenai`, `CheckYoutube`, `CheckNetflix` and `CheckDisney` is the
boolean the probe returned, also when it returned it alongside an error; so it is `false`
when the probe returned `false` with its error. -/
theorem best_effort_probes (fenv : FetchEnv) (penv : ProbeEnv) (c : Check)
    (proxies : List Node) (hN : 1 ≤ c.config.Concurrent)
    (hfetch : (GetProxyFromSubs fenv c.config).1 = .ok proxies) (hnew : c.results = []) :
    (∃ sched c', Start fenv penv c sched = some (.returned none c')) ∧
    (∀ sched res, Start fenv penv c sched = some res →
      ∃ c', res = .returned none c' ∧
        ∀ i proxy httpClient, (i, proxy) ∈ proxies.enum →
          CreateClient penv c.config i proxy = some httpClient →
          penv.CheckCloudflare i httpClient = (true, none) →
          penv.CheckGoogle i httpClient = (true, none) →
          ∃ r, r ∈ GetResults c' ∧ recordedResult penv c.config (i, proxy) = some r ∧
            r.Openai = (penv.CheckOpenai i httpClient).1 ∧
            r.Youtube = (penv.CheckYoutube i httpClient).1 ∧
            r.Netflix = (penv.CheckNetflix i httpClient).1 ∧
            r.Disney = (penv.CheckDisney i httpClient).1 ∧
            ((penv.CheckOpenai i httpClient).1 = false → r.Openai = false) ∧
            ((penv.CheckYoutube i httpClient).1 = false → r.Youtube = false) ∧
            ((penv.CheckNetflix i httpClient).1 = false → r.Netflix = false) ∧
            ((penv.CheckDisney i httpClient).1 = false → r.Disney = false)) := by
  refine ⟨(Start_final fenv penv c proxies hN hfetch).1, ?_⟩
  intro sched res hres
  obtain ⟨c', hc', hperm⟩ := Start_results_perm fenv penv c proxies hN hfetch hnew sched res hres
  refine ⟨c', hc', ?_⟩
  intro i proxy httpClient hmem hc hcf hgg
  obtain ⟨r, hr, _, _, h1, h2, h3, h4, _, _⟩ :=
    recordedResult_pass penv c.config i proxy httpClient hc hcf hgg
  exact ⟨r, Start_records penv c c' proxies hperm i proxy r hmem hr, hr, h1, h2, h3, h4,
    fun h => h1.trans h, fun h => h2.trans h, fun h => h3.trans h, fun h => h4.trans h⟩

/-- C3 on the three-node scenario: `CheckYoutube` answers `(false, error)` for the node at
position 0, which is recorded with `Youtube = false`. -/
theorem best_effort_probes_witness :
    (1 : Int) ≤ (New scenarioConfig).config.Concurrent ∧
      (GetProxyFromSubs scenarioFetch (New scenarioConfig).config).1
        = .ok [nodeA, nodeB, nodeC] ∧
      (New scenarioConfig).results = [] ∧
      (∀ httpClient, scenarioProbe.CheckYoutube 0 httpClient = (false, some "timeout")) ∧
      ∃ c' r, Start scenarioFetch scenarioProbe (New scenarioConfig) [0, 1, 1, 0, 1] =
          some (.returned none c') ∧ r ∈ GetResults c' ∧ r.Youtube = false := by
  have h := best_effort_probes scenarioFetch scenarioProbe (New scenarioConfig)
    [nodeA, nodeB, nodeC] (by decide) scenario_fetch rfl
  obtain ⟨c', hc', hall⟩ := h.2 [0, 1, 1, 0, 1] _ scenario_start
  cases hc'
  obtain ⟨r, hmem, _, _, _, _, _, _, hy, _, _⟩ :=
    hall 0 nodeA _ (List.mem_cons_self _ _) rfl rfl rfl
  exact ⟨by decide, scenario_fetch, rfl, fun _ => rfl, _, r, scenario_start, hmem, hy rfl⟩

/-- C3 as stated fails: in the three-node scenario `CheckOpenai` answers `(true, error)` for
the node at position 0, which passes both required probes, and the `Result` recorded for it
has `Openai = true`. -/
theorem best_effort_error_not_false :
    (∀ httpClient, scenarioProbe.CheckOpenai 0 httpClient = (true, some "unexpected EOF")) ∧
      ∃ c' r, Start scenarioFetch scenarioProbe (New scenarioConfig) [0, 1, 1, 0, 1] =
          some (.returned none c') ∧ GetResults c' = [r] ∧
        recordedResult scenarioProbe scenarioConfig (0, nodeA) = some r ∧ r.Openai = true :=
  ⟨fun _ => rfl, _, scenarioResult, scenario_start, rfl, rfl, rfl⟩

/-- C9: every node of the list that passes both required probes is recorded, in every
completed run, with a `"name"` field equal to `Rename(country)` when the geo lookup yields a
non-empty country name and to `Rename("未识别")` when it yields the empty one, whatever the
best-effort probes answer and whatever the node held under `"name"` before. -/
theorem enrichment_naming (fenv : FetchEnv) (penv : ProbeEnv) (c : Check)
    (proxies : List Node) (hN : 1 ≤ c.config.Concurrent)
    (hfetch : (GetProxyFromSubs fenv c.config).1 = .ok proxies) (hnew : c.results = []) :
    (∃ sched c', Start fenv penv c sched = some (.returned none c')) ∧
    (∀ sched res, Start fenv penv c sched = some res →
      ∃ c', res = .returned none c' ∧
        ∀ i proxy httpClient, (i, proxy) ∈ proxies.enum →
          CreateClient penv c.config i proxy = some httpClient →
          penv.CheckCloudflare i httpClient = (true, none) →
          penv.CheckGoogle i httpClient = (true, none) →
          ∃ r, r ∈ GetResults c' ∧ recordedResult penv c.config (i, proxy) = some r ∧
            (penv.GetIPCountrynameFromdb (penv.GetIPaddrFromAPI i httpClient) ≠ "" →
              mapLookup r.Proxy "name" = some (.str (penv.Rename
                (penv.GetIPCountrynameFromdb (penv.GetIPaddrFromAPI i httpClient))))) ∧
            (penv.GetIPCountrynameFromdb (penv.GetIPaddrFromAPI i httpClient) = "" →
              mapLookup r.Proxy "name" = some (.str (penv.Rename "未识别")))) := by
  refine ⟨(Start_final fenv penv c proxies hN hfetch).1, ?_⟩
  intro sched res hres
  obtain ⟨c', hc', hperm⟩ := Start_results_perm fenv penv c proxies hN hfetch hnew sched res hres
  refine ⟨c', hc', ?_⟩
  intro i proxy httpClient hmem hc hcf hgg
  obtain ⟨r, hr, _, _, _, _, _, _, hname, _⟩ :=
    recordedResult_pass penv c.config i proxy httpClient hc hcf hgg
  refine ⟨r, Start_records penv c c' proxies hperm i proxy r hmem hr, hr, ?_, ?_⟩
  · intro hne
    rw [hname, if_pos hne]
  · intro he
    rw [hname, if_neg (by simpa using he)]

/-- C9 on the three-node scenario with a geo database that knows no country: the node at
position 0 is recorded under the name `Rename("未识别")`. -/
theorem enrichment_naming_witness :
    (1 : Int) ≤ (New scenarioConfig).config.Concurrent ∧
      (GetProxyFromSubs scenarioFetch (New scenarioConfig).config).1
        = .ok [nodeA, nodeB, nodeC] ∧
      (New scenarioConfig).results = [] ∧
      ∃ c' r, Start scenarioFetch noCountryProbe (New scenarioConfig) [0, 1, 1, 0, 1] =
          some (.returned none c') ∧ r ∈ GetResults c' ∧
        mapLookup r.Proxy "name" = some (.str (noCountryProbe.Rename "未识别")) ∧
        mapLookup r.Proxy "name" = some (.str "未识别_1") := by
  have h := enrichment_naming scenarioFetch noCountryProbe (New scenarioConfig)
    [nodeA, nodeB, nodeC] (by decide) scenario_fetch rfl
  obtain ⟨sched, c0, hc0⟩ := h.1
  have hstart : Start scenarioFetch noCountryProbe (New scenarioConfig) [0, 1, 1, 0, 1] =
      some (.returned none (Check.mk scenarioConfig
        [{ scenarioResult with
            Proxy := [("name", .str "未识别_1"), ("type", .str "ss"), ("port", .int 443)] }])) :=
    rfl
  obtain ⟨c', hc', hall⟩ := h.2 [0, 1, 1, 0, 1] _ hstart
  cases hc'
  obtain ⟨r, hmem, _, _, hname⟩ := hall 0 nodeA _ (List.mem_cons_self _ _) rfl rfl rfl
  have hn := hname rfl
  exact ⟨by decide, scenario_fetch, rfl, _, r, hstart, hmem, hn, hn⟩

/-! ## Claims on the counters -/

/-- C4, for a run over fewer than `2^31` fetched nodes: the counters start at zero, in every
reachable state `progress ≥ availableCount`, and no step of a worker decreases `progress`
or `availableCount`. -/
theorem counter_invariant (fenv : FetchEnv) (penv : ProbeEnv) (c : Check)
    (proxies : List Node) (hfetch : (GetProxyFromSubs fenv c.config).1 = .ok proxies)
    (hlen : proxies.length < 2147483648) (s0 : RunState)
    (h0 : startBegin fenv c = .ok s0) :
    s0.shared.progress = 0 ∧ s0.shared.availableCount = 0 ∧
    ∀ s, Reachable penv c.config s0 s →
      s.shared.availableCount ≤ s.shared.progress ∧
      ∀ t, Step penv c.config s t →
        s.shared.progress ≤ t.shared.progress ∧
        s.shared.availableCount ≤ t.shared.availableCount := by
  have hinit : s0.shared.progress = 0 ∧ s0.shared.availableCount = 0 := by
    obtain ⟨_, _, _, _, rfl⟩ := startBegin_ok_inv fenv c s0 h0
    exact ⟨rfl, rfl⟩
  refine ⟨hinit.1, hinit.2, ?_⟩
  intro s hs
  obtain ⟨proxies', shards, P, a, hf, hsh, hinv⟩ := reachable_inv fenv penv c s0 s h0 hs
  rw [hfetch] at hf
  cases hf
  have hle : shards.flatten.length ≤ proxies.length := by
    have := spawnShards_length_le _ _ _ hsh
    rwa [List.enum_length] at this
  obtain ⟨haP, hPall⟩ := RunInv_bounds penv c.config _ _ s P a hinv
  have hprog : s.shared.progress = P := by
    rw [hinv.progress_eq, wrapInt32_of_lt P (by omega)]
  have hav : s.shared.availableCount = a := by
    rw [hinv.available_eq, wrapInt32_of_lt a (by omega)]
  refine ⟨by rw [hprog, hav]; exact_mod_cast haP, ?_⟩
  intro t ht
  obtain ⟨k, hk⟩ := ht
  obtain ⟨dP, new, _, hinv', _⟩ := RunInv_step penv c.config _ _ s t P a k hinv hk
  obtain ⟨haP', hPall'⟩ := RunInv_bounds penv c.config _ _ t _ _ hinv'
  have hprog' : t.shared.progress = ((P + dP : Nat) : Int) := by
    rw [hinv'.progress_eq, wrapInt32_of_lt _ (by omega)]
  have hav' : t.shared.availableCount = ((a + new.length : Nat) : Int) := by
    rw [hinv'.available_eq, wrapInt32_of_lt _ (by omega)]
  rw [hprog, hav, hprog', hav']
  constructor <;> exact_mod_cast (by omega)

/-- C4 on the three-node scenario: after the schedule `[0, 1, 1, 0]` both nodes with a
client are counted and one result is recorded; the last step changes neither counter. -/
theorem counter_invariant_witness :
    (GetProxyFromSubs scenarioFetch (New scenarioConfig).config).1
        = .ok [nodeA, nodeB, nodeC] ∧
      [nodeA, nodeB, nodeC].length < 2147483648 ∧
      startBegin scenarioFetch (New scenarioConfig) =
        .ok (initRun [] [[(0, nodeA)], [(1, nodeB), (2, nodeC)]]) ∧
      ∃ s t, run scenarioProbe scenarioConfig [0, 1, 1, 0]
          (initRun [] [[(0, nodeA)], [(1, nodeB), (2, nodeC)]]) = some s ∧
        step scenarioProbe scenarioConfig 1 s = some t ∧
        s.shared.progress = 2 ∧ s.shared.availableCount = 1 ∧
        s.shared.availableCount ≤ s.shared.progress ∧
        s.shared.progress ≤ t.shared.progress ∧
        s.shared.availableCount ≤ t.shared.availableCount := by
  have h := counter_invariant scenarioFetch scenarioProbe (New scenarioConfig)
    [nodeA, nodeB, nodeC] scenario_fetch (by decide) _ scenario_begin
  refine ⟨scenario_fetch, by decide, scenario_begin, _, _, rfl, rfl, rfl, rfl, ?_, ?_, ?_⟩
  · exact (h.2.2 _ ⟨[0, 1, 1, 0], rfl⟩).1
  · exact ((h.2.2 _ ⟨[0, 1, 1, 0], rfl⟩).2 _ ⟨1, rfl⟩).1
  · exact ((h.2.2 _ ⟨[0, 1, 1, 0], rfl⟩).2 _ ⟨1, rfl⟩).2

/-- C4 as stated fails on `2^31` nodes that all get a client and all fail `CheckCloudflare`:
when the single worker has finished, `progress` has wrapped to `-2^31` and is below
`availableCount = 0`. -/
theorem counter_invariant_wraps :
    ∃ s0 s, startBegin (manyNodesFetch 2147483648) (New oneWorkerConfig) = .ok s0 ∧
      Reachable rejectingProbe oneWorkerConfig s0 s ∧
      s.shared.progress = -2147483648 ∧ s.shared.availableCount = 0 ∧
      s.shared.progress < s.shared.availableCount := by
  obtain ⟨s0, s, h0, hr, _, hp, ha, _⟩ := manyNodes_rejecting 2147483648 (by omega)
  rw [wrapInt32_two_pow_31] at hp
  exact ⟨s0, s, h0, hr, hp, ha, by rw [hp, ha]; decide⟩

/-- C5, for a run over fewer than `2^31` fetched nodes that starts from an empty result list:
the run starts with no result and `availableCount = 0`; every step of a worker either leaves
the result list and `availableCount` as they are or appends exactly one `Result` and adds
one to `availableCount`; so in every reachable state `len(c.results) = availableCount`, and
when `Start` returns, `GetResults` returns a list of that length. -/
theorem aggregator_consistency (fenv : FetchEnv) (penv : ProbeEnv) (c : Check)
    (proxies : List Node) (hnew : c.results = [])
    (hfetch : (GetProxyFromSubs fenv c.config).1 = .ok proxies)
    (hlen : proxies.length < 2147483648) (s0 : RunState)
    (h0 : startBegin fenv c = .ok s0) :
    s0.shared.results = [] ∧ s0.shared.availableCount = 0 ∧
    (∀ s, Reachable penv c.config s0 s →
      s.shared.availableCount = (s.shared.results.length : Int) ∧
      ∀ t, Step penv c.config s t →
        (t.shared.results = s.shared.results ∧
          t.shared.availableCount = s.shared.availableCount) ∨
        (∃ r, t.shared.results = s.shared.results ++ [r] ∧
          t.shared.availableCount = s.shared.availableCount + 1)) ∧
    (∀ sched c', Start fenv penv c sched = some (.returned none c') →
      ∃ s, run penv c.config sched s0 = some s ∧ allDone s = true ∧
        GetResults c' = s.shared.results ∧
        ((GetResults c').length : Int) = s.shared.availableCount) := by
  have hinit : s0.shared.results = [] ∧ s0.shared.availableCount = 0 := by
    obtain ⟨_, _, _, _, rfl⟩ := startBegin_ok_inv fenv c s0 h0
    exact ⟨hnew, rfl⟩
  have hstate : ∀ s, Reachable penv c.config s0 s →
      ∃ (shards : List (List (Nat × Node))) (P a : Nat),
        RunInv penv c.config shards.flatten c.results s P a ∧
        shards.flatten.length ≤ proxies.length ∧
        s.shared.availableCount = (s.shared.results.length : Int) := by
    intro s hs
    obtain ⟨proxies', shards, P, a, hf, hsh, hinv⟩ := reachable_inv fenv penv c s0 s h0 hs
    rw [hfetch] at hf
    cases hf
    have hle : shards.flatten.length ≤ proxies.length := by
      have := spawnShards_length_le _ _ _ hsh
      rwa [List.enum_length] at this
    obtain ⟨haP, hPall⟩ := RunInv_bounds penv c.config _ _ s P a hinv
    have hl := hinv.length_eq
    rw [hnew] at hl
    refine ⟨shards, P, a, hinv, hle, ?_⟩
    rw [hinv.available_eq, wrapInt32_of_lt a (by omega), hl]
    simp
  refine ⟨hinit.1, hinit.2, ?_, ?_⟩
  · intro s hs
    obtain ⟨shards, P, a, hinv, hle, heq⟩ := hstate s hs
    refine ⟨heq, ?_⟩
    intro t ht
    obtain ⟨_, _, _, _, _, heq'⟩ := hstate t (reachable_step penv c.config s0 s t hs ht)
    obtain ⟨k, hk⟩ := ht
    obtain ⟨dP, new, he, _, _⟩ := RunInv_step penv c.config _ _ s t P a k hinv hk
    obtain ⟨_, hn, _, _, _, hres⟩ := he
    match new, hn, hres with
    | [], _, hres =>
      left
      have hr : t.shared.results = s.shared.results := by simpa using hres
      exact ⟨hr, by rw [heq', heq, hr]⟩
    | [r], _, hres =>
      right
      refine ⟨r, hres, ?_⟩
      rw [heq', heq, hres]
      simp
    | _ :: _ :: _, hn, _ => simp at hn
  · intro sched c' hstart
    obtain ⟨s0', s, h0', hrun, hdone, hc'⟩ := Start_returned_inv fenv penv c c' sched hstart
    rw [h0] at h0'
    cases h0'
    obtain ⟨_, _, _, _, _, heq⟩ := hstate s ⟨sched, hrun⟩
    refine ⟨s, hrun, hdone, by rw [hc']; rfl, ?_⟩
    rw [hc', heq]
    rfl

/-- C5 on the three-node scenario: after the complete schedule `[0, 1, 1, 0, 1]` one result
is recorded, `availableCount` is `1`, and `GetResults` returns a list of length one. -/
theorem aggregator_consistency_witness :
    (New scenarioConfig).results = [] ∧
      (GetProxyFromSubs scenarioFetch (New scenarioConfig).config).1
        = .ok [nodeA, nodeB, nodeC] ∧
      [nodeA, nodeB, nodeC].length < 2147483648 ∧
      startBegin scenarioFetch (New scenarioConfig) =
        .ok (initRun [] [[(0, nodeA)], [(1, nodeB), (2, nodeC)]]) ∧
      ∃ s, run scenarioProbe scenarioConfig [0, 1, 1, 0, 1]
          (initRun [] [[(0, nodeA)], [(1, nodeB), (2, nodeC)]]) = some s ∧
        s.shared.availableCount = 1 ∧
        s.shared.availableCount = (s.shared.results.length : Int) ∧
        GetResults { config := scenarioConfig, results := [scenarioResult] }
          = s.shared.results := by
  have h := aggregator_consistency scenarioFetch scenarioProbe (New scenarioConfig)
    [nodeA, nodeB, nodeC] rfl scenario_fetch (by decide) _ scenario_begin
  obtain ⟨s, hs, _, hres, _⟩ := h.2.2.2 [0, 1, 1, 0, 1] _ scenario_start
  have hs2 : run scenarioProbe scenarioConfig [0, 1, 1, 0, 1]
      (initRun [] [[(0, nodeA)], [(1, nodeB), (2, nodeC)]]) = some s := hs
  have hav := (h.2.2.1 s ⟨_, hs⟩).1
  have hone : s.shared.availableCount = 1 := by
    rw [hav, ← hres]
    rfl
  exact ⟨rfl, scenario_fetch, by decide, scenario_begin, s, hs2, hone, hav, hres⟩

/-- C5 as stated fails on `2^31` nodes that all pass both required probes: when the single
worker has finished the result list holds `2^31` results and `availableCount` has wrapped
to `-2^31`. -/
theorem aggregator_count_wraps :
    ∃ s0 s, startBegin (manyNodesFetch 2147483648) (New oneWorkerConfig) = .ok s0 ∧
      (New oneWorkerConfig).results = [] ∧
      Reachable acceptingProbe oneWorkerConfig s0 s ∧ allDone s = true ∧
      s.shared.results.length = 2147483648 ∧ s.shared.availableCount = -2147483648 ∧
      (s.shared.results.length : Int) ≠ s.shared.availableCount := by
  obtain ⟨s0, s, h0, hr, hd, ha, hl⟩ := manyNodes_accepting 2147483648 (by omega)
  rw [wrapInt32_two_pow_31] at ha
  refine ⟨s0, s, h0, rfl, hr, hd, hl, ha, ?_⟩
  rw [hl, ha]
  decide

/-- C6, for a run over fewer than `2^31` fetched nodes (with a concurrency of at least one,
from an empty result list): `Start` completes, and when it does `progress` equals the number
of nodes of the list for which `CreateClient` returned a client, whatever the probes
answered; a node with a client whose `CheckCloudflare` succeeds and whose `CheckGoogle`
fails is counted and has no result, and a node without a client is neither counted nor
recorded. -/
theorem processed_count (fenv : FetchEnv) (penv : ProbeEnv) (c : Check)
    (proxies : List Node) (hN : 1 ≤ c.config.Concurrent)
    (hfetch : (GetProxyFromSubs fenv c.config).1 = .ok proxies) (hnew : c.results = [])
    (hlen : proxies.length < 2147483648) :
    (∃ sched c', Start fenv penv c sched = some (.returned none c')) ∧
    (∀ sched res, Start fenv penv c sched = some res →
      ∃ s0 s, startBegin fenv c = .ok s0 ∧ run penv c.config sched s0 = some s ∧
        allDone s = true ∧ res = .returned none { c with results := s.shared.results } ∧
        s.shared.progress = ((proxies.enum.filter (hasClient penv c.config)).length : Int) ∧
        s.shared.results.Perm (proxies.enum.filterMap (recordedResult penv c.config))) ∧
    (∀ i proxy, hasClient penv c.config (i, proxy) = true ↔
      ∃ httpClient, CreateClient penv c.config i proxy = some httpClient) ∧
    (∀ i proxy httpClient, CreateClient penv c.config i proxy = some httpClient →
      penv.CheckCloudflare i httpClient = (true, none) →
      penv.CheckGoogle i httpClient ≠ (true, none) →
      hasClient penv c.config (i, proxy) = true ∧
        recordedResult penv c.config (i, proxy) = none) ∧
    (∀ i proxy, CreateClient penv c.config i proxy = none →
      hasClient penv c.config (i, proxy) = false ∧
        recordedResult penv c.config (i, proxy) = none) := by
  refine ⟨(Start_final fenv penv c proxies hN hfetch).1, ?_, ?_, ?_, ?_⟩
  · intro sched res hres
    obtain ⟨s0, s, P, a, h0, hrun, hr, hdone, hinv⟩ :=
      (Start_final fenv penv c proxies hN hfetch).2 sched res hres
    obtain ⟨_, hprog, hperm⟩ := RunInv_final penv c.config _ _ s P a hinv hdone
    rw [hnew, List.nil_append] at hperm
    refine ⟨s0, s, h0, hrun, hdone, hr, ?_, hperm⟩
    have hle : (proxies.enum.filter (hasClient penv c.config)).length ≤ proxies.length := by
      have := List.length_filter_le (hasClient penv c.config) proxies.enum
      rwa [List.enum_length] at this
    rw [hprog, wrapInt32_of_lt _ (by omega)]
  · intro i proxy
    simp [hasClient, Option.isSome_iff_exists]
  · intro i proxy httpClient hc hcf hgg
    refine ⟨by simp [hasClient, hc], ?_⟩
    have hskip := (probeNode_skipped_iff penv i httpClient proxy).mpr (fun h => hgg h.2)
    simp [recordedResult, hc, hskip]
  · intro i proxy hc
    exact ⟨by simp [hasClient, hc], by simp [recordedResult, hc]⟩

/-- C6 on the three-node scenario: the nodes at positions 0 and 1 get a client, so
`progress` ends at `2`; the node at position 1 passes `CheckCloudflare`, fails `CheckGoogle`
and has no result. -/
theorem processed_count_witness :
    (1 : Int) ≤ (New scenarioConfig).config.Concurrent ∧
      (GetProxyFromSubs scenarioFetch (New scenarioConfig).config).1
        = .ok [nodeA, nodeB, nodeC] ∧
      (New scenarioConfig).results = [] ∧
      [nodeA, nodeB, nodeC].length < 2147483648 ∧
      ∃ s, run scenarioProbe scenarioConfig [0, 1, 1, 0, 1]
          (initRun [] [[(0, nodeA)], [(1, nodeB), (2, nodeC)]]) = some s ∧
        s.shared.progress = 2 ∧
        ([nodeA, nodeB, nodeC].enum.filter (hasClient scenarioProbe scenarioConfig)).length
          = 2 ∧
        recordedResult scenarioProbe scenarioConfig (1, nodeB) = none := by
  have h := processed_count scenarioFetch scenarioProbe (New scenarioConfig)
    [nodeA, nodeB, nodeC] (by decide) scenario_fetch rfl (by decide)
  obtain ⟨s0, s, h0, hrun, _, _, hprog, _⟩ := h.2.1 [0, 1, 1, 0, 1] _ scenario_start
  rw [scenario_begin] at h0
  cases h0
  have hcount : ([nodeA, nodeB, nodeC].enum.filter
      (hasClient scenarioProbe scenarioConfig)).length = 2 := rfl
  have hp : s.shared.progress = 2 := by
    rw [hprog]
    exact_mod_cast hcount
  exact ⟨by decide, scenario_fetch, rfl, by decide, s, hrun, hp, hcount,
    (h.2.2.2.1 1 nodeB _ rfl rfl (by decide)).2⟩

/-- C6 as stated fails on `2^31` nodes that all get a client: when the single worker has
finished, `progress` is `-2^31`, not the number `2^31` of nodes with a client. -/
theorem processed_count_wraps :
    ∃ s0 s, startBegin (manyNodesFetch 2147483648) (New oneWorkerConfig) = .ok s0 ∧
      (GetProxyFromSubs (manyNodesFetch 2147483648) oneWorkerConfig).1
        = .ok (List.replicate 2147483648 nodeA) ∧
      Reachable rejectingProbe oneWorkerConfig s0 s ∧ allDone s = true ∧
      ((List.replicate 2147483648 nodeA).enum.filter
        (hasClient rejectingProbe oneWorkerConfig)).length = 2147483648 ∧
      s.shared.progress = -2147483648 := by
  obtain ⟨s0, s, h0, hr, hd, hp, _, _⟩ := manyNodes_rejecting 2147483648 (by omega)
  rw [wrapInt32_two_pow_31] at hp
  refine ⟨s0, s, h0, manyNodes_fetch 2147483648 (by omega), hr, hd, ?_, hp⟩
  have hall : (List.replicate 2147483648 nodeA).enum.filter
      (hasClient rejectingProbe oneWorkerConfig) = (List.replicate 2147483648 nodeA).enum :=
    List.filter_eq_self.mpr (fun x _ => rfl)
  rw [hall, List.enum_length, List.length_replicate]

end SubsCheck
